import Mathlib

/-!
# Mediaflix — verification of the filename/metadata pipeline

Shallow embedding of the algorithmic core of `mediaflix.py`:
filename parsing (`extract_year`, `extract_movie_title`,
`extract_series_info`), the poster/synopsis cache keyed by quoted
`(title, year)` strings, the TMDB candidate disambiguation, and the
collision-free move-name computation.  Strings are modelled as Lean
`String`/`List Char`; the source's regex scans are translated into
explicit left-to-right character scanners.  Regex classes `\d`, `\s`,
`\w` are modelled over their ASCII ranges, matching the filenames the
program manipulates.
-/

namespace Mediaflix

/-! ## Definitions -/

/-- ASCII decimal digit (regex `\d` / `\D` complement). -/
def isDig (c : Char) : Bool := 48 ≤ c.toNat && c.toNat ≤ 57

/-- Python `str.strip` whitespace set (ASCII part): space, tab, LF, CR, VT, FF. -/
def isSpc (c : Char) : Bool :=
  c = ' ' || c = '\t' || c = '\n' || c = '\r' || c.toNat = 11 || c.toNat = 12

/-- Regex word character `\w` (ASCII): letters, digits, underscore. -/
def isWordC (c : Char) : Bool :=
  isDig c || (97 ≤ c.toNat && c.toNat ≤ 122) || (65 ≤ c.toNat && c.toNat ≤ 90) || c = '_'

/-- ASCII alphanumeric, the class kept by `re.sub(r'[^a-zA-Z0-9\s]', '', ...)`. -/
def isAlnum (c : Char) : Bool :=
  isDig c || (97 ≤ c.toNat && c.toNat ≤ 122) || (65 ≤ c.toNat && c.toNat ≤ 90)

/-- Python `str.strip()` on a character list. -/
def pystrip (cs : List Char) : List Char :=
  ((cs.dropWhile isSpc).reverse.dropWhile isSpc).reverse

/-- Decimal value of a digit string (Python `int` on an all-digit string). -/
def digitsVal (cs : List Char) : Nat :=
  cs.foldl (fun a c => a * 10 + (c.toNat - 48)) 0

/-- Generic leftmost-match scanner: `f` receives the character before the
current position (`none` at the start of the string) and the suffix at the
current position, and reports a match there; `scanP` returns the first match,
scanning left to right — the semantics of `re.search`. -/
def scanP (f : Option Char → List Char → Option α) : Option Char → List Char → Option α
  | prev, [] => f prev []
  | prev, c :: rest => (f prev (c :: rest)) <|> scanP f (some c) rest

/-- The character just before position `j`, as `scanP` sees it. -/
def prevAt (prev : Option Char) (cs : List Char) (j : Nat) : Option Char :=
  if j = 0 then prev else cs.get? (j - 1)

/-- Year pattern `19[0-9]{2}|20[0-2][0-9]` (years 1900–2029). -/
def yearCore (a b c d : Char) : Bool :=
  (a = '1' && b = '9' && isDig c && isDig d) ||
  (a = '2' && b = '0' && (48 ≤ c.toNat && c.toNat ≤ 50) && isDig d)

def optIsDig : Option Char → Bool
  | none => false
  | some c => isDig c

def optIsWord : Option Char → Bool
  | none => false
  | some c => isWordC c

/-- Matcher for `(?:^|\D)(19[0-9]{2}|20[0-2][0-9])(?:\D|$)` at one position:
the previous character (if any) must be a non-digit, then four year digits,
then a non-digit or end of string. -/
def bareYearAt (prev : Option Char) (cs : List Char) : Option (List Char) :=
  match cs with
  | a :: b :: c :: d :: rest =>
    if !optIsDig prev && yearCore a b c d && !optIsDig rest.head? then
      some [a, b, c, d]
    else none
  | _ => none

/-- Matcher for a year enclosed in `ob`/`cb` (patterns `\[(...)\]`, `\((...)\)`). -/
def brYearAt (ob cb : Char) (_ : Option Char) (cs : List Char) : Option (List Char) :=
  match cs with
  | o :: a :: b :: c :: d :: e :: _ =>
    if o = ob && yearCore a b c d && e = cb then some [a, b, c, d] else none
  | _ => none

/-- `extract_year` from `mediaflix.py`: three patterns tried in order, each via
a leftmost `re.search`; the first pattern that matches anywhere wins. -/
def extract_year (name : String) : Option String :=
  match scanP bareYearAt none name.data with
  | some y => some (String.mk y)
  | none =>
    match scanP (brYearAt '[' ']') none name.data with
    | some y => some (String.mk y)
    | none =>
      match scanP (brYearAt '(' ')') none name.data with
      | some y => some (String.mk y)
      | none => none

/-- `name.replace('.', ' ').replace('_', ' ')` acts characterwise. -/
def sepToSpace (c : Char) : Char := if c = '.' || c = '_' then ' ' else c

/-- Matcher for `(19|20)\d{2}` (no boundary conditions); returns the suffix
starting at the match so the caller can recover the match position. -/
def looseYearAt (_ : Option Char) (cs : List Char) : Option (List Char) :=
  match cs with
  | a :: b :: c :: d :: _ =>
    if ((a = '1' && b = '9') || (a = '2' && b = '0')) && isDig c && isDig d then
      some cs
    else none
  | _ => none

/-- `ImageItem.extract_movie_title`: replace separators by spaces, then return
the text before the first `(19|20)\d{2}` occurrence (stripped), or the whole
cleaned string (stripped) when there is none. -/
def extract_movie_title (name : String) : String :=
  match scanP looseYearAt none (name.data.map sepToSpace) with
  | some suf => String.mk (pystrip ((name.data.map sepToSpace).take
      ((name.data.map sepToSpace).length - suf.length)))
  | none => String.mk (pystrip (name.data.map sepToSpace))

/-- Matcher for `[Ss](\d+)[Ee](\d+)` at one position: returns the suffix at the
match (for position recovery) plus the season and episode values.  The greedy
`\d+` runs are the maximal digit runs: a shorter run would leave a digit where
`[Ee]` must match. -/
def seTokenAt (_ : Option Char) (cs : List Char) : Option (List Char × Nat × Nat) :=
  match cs with
  | s :: rest =>
    if s = 'S' || s = 's' then
      let d1 := rest.takeWhile isDig
      if d1.isEmpty then none
      else
        match rest.drop d1.length with
        | e :: rest2 =>
          if e = 'E' || e = 'e' then
            let d2 := rest2.takeWhile isDig
            if d2.isEmpty then none else some (cs, digitsVal d1, digitsVal d2)
          else none
        | [] => none
    else none
  | [] => none

/-- Quality tag `\b(1080|720|480)p\b` (case-insensitive `p`) matched at the
head of the suffix; returns the rest after the tag.  The tag starts with a
digit, so the leading `\b` is equivalent to the previous character not being
a word character, which the caller checks. -/
def tagAt (cs : List Char) : Option (List Char) :=
  match cs with
  | '1' :: '0' :: '8' :: '0' :: p :: rest =>
    if (p = 'p' || p = 'P') && !optIsWord rest.head? then some rest else none
  | '7' :: '2' :: '0' :: p :: rest =>
    if (p = 'p' || p = 'P') && !optIsWord rest.head? then some rest else none
  | '4' :: '8' :: '0' :: p :: rest =>
    if (p = 'p' || p = 'P') && !optIsWord rest.head? then some rest else none
  | _ => none

/-- `re.sub(r'\b(1080|720|480)p\b', '', s, flags=IGNORECASE)`: left-to-right
scan deleting every non-overlapping tag occurrence; `prevW` records whether
the preceding character of the original string is a word character.  The scan
consumes at least one character per step, so fuel `cs.length` suffices. -/
def removeQualF : Nat → Bool → List Char → List Char
  | 0, _, _ => []
  | _ + 1, _, [] => []
  | fuel + 1, prevW, c :: rest =>
    match (if prevW then none else tagAt (c :: rest)) with
    | some suf => removeQualF fuel true suf
    | none => c :: removeQualF fuel (isWordC c) rest

def removeQual (prevW : Bool) (cs : List Char) : List Char :=
  removeQualF cs.length prevW cs

/-- `re.sub(r'\[.*?\]', '', s)`: on `[`, delete through the first following
`]` (the non-greedy `.*?` stops at the first closer); a `[` with no closer is
kept literally. -/
def removeBrF : Nat → List Char → List Char
  | 0, _ => []
  | _ + 1, [] => []
  | fuel + 1, c :: rest =>
    if c = '[' then
      match rest.dropWhile (· ≠ ']') with
      | [] => c :: removeBrF fuel rest
      | _ :: after => removeBrF fuel after
    else c :: removeBrF fuel rest

def removeBr (cs : List Char) : List Char :=
  removeBrF cs.length cs

/-- The series-name cleanup chain of `extract_series_info`. -/
def cleanupSeriesName (base : List Char) (year : Option String) : List Char :=
  let s1 := pystrip (base.map sepToSpace)
  let s2 := pystrip (removeQual false s1)
  let s3 := pystrip (removeBr s2)
  let s4 := match year with
    | some y => if y.data.isSuffixOf s3 then pystrip (s3.take (s3.length - y.data.length)) else s3
    | none => s3
  pystrip (s4.filter (fun c => isAlnum c || isSpc c))

/-- `extract_series_info` from `mediaflix.py`. -/
def extract_series_info (filename : String) :
    Option String × Option String × Option String :=
  match scanP seTokenAt none filename.data with
  | none => (none, none, none)
  | some (suf, sn, _) =>
    let base := filename.data.take (filename.data.length - suf.length)
    let year := extract_year (String.mk base)
    let series := cleanupSeriesName base year
    (some (String.mk series), some ("Season " ++ Nat.repr sn), year)

/-- UTF-8 encoding of one character. -/
def charBytes (c : Char) : List Nat :=
  if c.toNat < 128 then [c.toNat]
  else if c.toNat < 2048 then [192 + c.toNat / 64, 128 + c.toNat % 64]
  else if c.toNat < 65536 then
    [224 + c.toNat / 4096, 128 + c.toNat / 64 % 64, 128 + c.toNat % 64]
  else
    [240 + c.toNat / 262144, 128 + c.toNat / 4096 % 64, 128 + c.toNat / 64 % 64,
      128 + c.toNat % 64]

/-- The UTF-8 byte string of a Python `str`. -/
def strBytes (s : String) : List Nat := s.data.flatMap charBytes

/-- Bytes `urllib.parse.quote` leaves unescaped with its default `safe='/'`:
ASCII letters, digits, and `_ . - ~ /`. -/
def quoteSafe (b : Nat) : Bool :=
  (65 ≤ b && b ≤ 90) || (97 ≤ b && b ≤ 122) || (48 ≤ b && b ≤ 57) ||
  b = 95 || b = 46 || b = 45 || b = 126 || b = 47

/-- Uppercase hex digit. -/
def hexDig (n : Nat) : Char :=
  if n < 10 then Char.ofNat (48 + n) else Char.ofNat (55 + n)

/-- Percent-encoding of one byte. -/
def encByte (b : Nat) : List Char :=
  if quoteSafe b then [Char.ofNat b] else ['%', hexDig (b / 16), hexDig (b % 16)]

/-- `urllib.parse.quote(s)` (default safe set). -/
def pyquote (s : String) : String :=
  String.mk ((strBytes s).flatMap encByte)

/-- Hex digit value (uppercase), inverse of `hexDig`. -/
def hexVal (c : Char) : Nat := if 65 ≤ c.toNat then c.toNat - 55 else c.toNat - 48

/-- Percent-decoding: left inverse of the byte-level encoding. -/
def pdec : List Char → List Nat
  | [] => []
  | c :: rest =>
    if c = '%' then
      (hexVal (rest.headD 'x') * 16 + hexVal ((rest.drop 1).headD 'x')) :: pdec (rest.drop 2)
    else c.toNat :: pdec rest
termination_by cs => cs.length
decreasing_by
  · simp only [List.length_cons, List.length_drop]
    omega
  · simp

/-- UTF-8 decoding: left inverse of `charBytes` concatenation. -/
def udec : List Nat → List Char
  | [] => []
  | b :: rest =>
    if b < 128 then Char.ofNat b :: udec rest
    else if b < 224 then
      Char.ofNat ((b - 192) * 64 + (rest.headD 0 - 128)) :: udec (rest.drop 1)
    else if b < 240 then
      Char.ofNat ((b - 224) * 4096 + (rest.headD 0 - 128) * 64 + ((rest.drop 1).headD 0 - 128))
        :: udec (rest.drop 2)
    else
      Char.ofNat ((b - 240) * 262144 + (rest.headD 0 - 128) * 4096 +
          ((rest.drop 1).headD 0 - 128) * 64 + ((rest.drop 2).headD 0 - 128))
        :: udec (rest.drop 3)
termination_by bs => bs.length
decreasing_by
  · simp
  · simp only [List.length_cons, List.length_drop]
    omega
  · simp only [List.length_cons, List.length_drop]
    omega
  · simp only [List.length_cons, List.length_drop]
    omega

/-- Python truthiness of an optional string (`None` and `""` are falsy). -/
def truthy : Option String → Bool
  | none => false
  | some s => s ≠ ""

/-- `cache_name = f"{search_title}"`, plus `f" {search_year}"` when the year
is known — shared by the poster and synopsis caches. -/
def cacheName (title : String) (year : Option String) : String :=
  match year with
  | some y => if y ≠ "" then title ++ " " ++ y else title
  | none => title

/-- Poster cache file name `f"{quote(cache_name)}.jpg"`. -/
def posterKey (title : String) (year : Option String) : String :=
  pyquote (cacheName title year) ++ ".jpg"

/-- Synopsis cache file name `f"{quote(cache_name)}.txt"`. -/
def synKey (title : String) (year : Option String) : String :=
  pyquote (cacheName title year) ++ ".txt"

/-- Python `str.replace(pat, rep)` (all non-overlapping occurrences, leftmost
first); fuel-structured on the scanned length. -/
def replF : Nat → List Char → List Char → List Char → List Char
  | 0, _, _, _ => []
  | _ + 1, _, _, [] => []
  | fuel + 1, pat, rep, c :: rest =>
    if pat.isPrefixOf (c :: rest) then
      rep ++ replF fuel pat rep (List.drop pat.length (c :: rest))
    else c :: replF fuel pat rep rest

def pyReplace (s pat rep : String) : String :=
  String.mk (replF s.data.length pat.data rep.data s.data)

/-- Metadata cache file name `cache_file.replace('.txt', '_meta.txt')`. -/
def metaKey (title : String) (year : Option String) : String :=
  pyReplace (synKey title year) ".txt" "_meta.txt"

def getA : List (String × String) → String → Option String
  | [], _ => none
  | (k, v) :: rest, key => if k = key then some v else getA rest key

def setA : List (String × String) → String → String → List (String × String)
  | [], key, val => [(key, val)]
  | (k, v) :: rest, key, val =>
    if k = key then (k, val) :: rest else (k, v) :: setA rest key val

/-- Python `str.split(sep)` on characters, keeping empty groups. -/
def pySplitCh (sep : Char) : List Char → List (List Char)
  | [] => [[]]
  | c :: rest =>
    match pySplitCh sep rest with
    | [] => if c = sep then [[], []] else [[c]]
    | g :: gs => if c = sep then [] :: g :: gs else (c :: g) :: gs

def pySplit (sep : Char) (s : String) : List String :=
  (pySplitCh sep s.data).map String.mk

/-- Python `sep.join(xs)`. -/
def joinSep (sep : String) : List String → String
  | [] => ""
  | [x] => x
  | x :: xs => x ++ sep ++ joinSep sep xs

/-- Python `f"{x}"` for an optional value (`None` prints as `"None"`).
Numeric ratings are carried as their printed tokens. -/
def optStr : Option String → String
  | none => "None"
  | some s => s

/-- The `genre_map` table from the source. -/
def genre_map : List (Nat × String) :=
  [(28, "Action"), (12, "Adventure"), (16, "Animation"), (35, "Comedy"), (80, "Crime"),
   (99, "Documentary"), (18, "Drama"), (10751, "Family"), (14, "Fantasy"), (36, "History"),
   (27, "Horror"), (10402, "Music"), (9648, "Mystery"), (10749, "Romance"), (878, "Sci-Fi"),
   (10770, "TV Movie"), (53, "Thriller"), (10752, "War"), (37, "Western"),
   (10759, "Action & Adventure"), (10762, "Kids"), (10763, "News"), (10764, "Reality"),
   (10765, "Sci-Fi & Fantasy"), (10766, "Soap"), (10767, "Talk"), (10768, "War & Politics")]

/-- `genre_map.get(gid, "")`. -/
def genreGet (gid : Nat) : String := ((genre_map.lookup gid).getD "")

/-- `[genre_map.get(int(gid), "") for gid in genres if gid]` followed by
dropping empty names. -/
def genres_named (gids : List Nat) : List String :=
  (gids.map genreGet).filter (fun g => g ≠ "")

/-- The single meta line `f"{imdb_rating}|{','.join(genres_named)}|{release_year}"`. -/
def writeMetaLine (rating : Option String) (gs : List String) (yr : Option String) : String :=
  optStr rating ++ "|" ++ joinSep "," gs ++ "|" ++ optStr yr

/-- The meta-line reader (`meta = f.read().split('|'); if len(meta) == 3: ...`):
rating is absent iff the first field is the literal `"None"`, genres are the
comma-split of the second field when non-empty, and an empty third field falls
back to the caller's known year.  The `float()` conversion is modelled as
carrying the printed token. -/
def parseMetaFields (searchYear : Option String) (content : String) :
    Option (Option String × List String × Option String) :=
  match pySplit '|' content with
  | [r0, r1, r2] =>
    some (if r0 ≠ "None" then some r0 else none,
          if r1 ≠ "" then pySplit ',' r1 else [],
          if r2 ≠ "" then some r2 else searchYear)
  | _ => none

/-- One remote search result as `load_poster`/`load_metadata` read it.  JSON
numbers (ratings) are carried as their printed tokens; a missing `genre_ids`
key is `none`. -/
structure Candidate where
  release_date : String
  first_air_date : String
  poster_path : Option String
  backdrop_path : Option String
  overview : String
  vote_average : Option String
  genre_ids : Option (List Nat)
deriving DecidableEq

/-- `result.get("release_date", "")[:4] or result.get("first_air_date", "")[:4]`. -/
def candYear (r : Candidate) : String :=
  if String.mk (r.release_date.data.take 4) ≠ "" then String.mk (r.release_date.data.take 4)
  else String.mk (r.first_air_date.data.take 4)

/-- Python `a or b` on optional strings (`None` and `""` are falsy). -/
def pyOr (a b : Option String) : Option String :=
  match a with
  | some s => if s ≠ "" then some s else b
  | none => b

structure CacheState where
  syn : List (String × String)
  meta : List (String × String)
deriving DecidableEq

structure MetaResult where
  imdb_rating : Option String
  genres : List String
  release_year : Option String
  synopsis : String
deriving DecidableEq

/-- Loop state: `overview`, `imdb_rating`, `genres` (raw ids), `release_year`. -/
structure MetaAcc where
  overview : String
  rating : Option String
  gids : List Nat
  ryear : Option String

/-- First result loop: on a year match overwrite all four variables and stop
once a non-empty overview was found. -/
def metaLoop1 (y : String) : List Candidate → MetaAcc → MetaAcc
  | [], acc => acc
  | r :: rest, acc =>
    if candYear r = y then
      let acc' : MetaAcc :=
        ⟨r.overview, r.vote_average,
         (match r.genre_ids with | some g => g | none => acc.gids), some (candYear r)⟩
      if r.overview ≠ "" then acc' else metaLoop1 y rest acc'
    else metaLoop1 y rest acc

/-- Second result loop (`if not overview`): same updates without the year
condition. -/
def metaLoop2 : List Candidate → MetaAcc → MetaAcc
  | [], acc => acc
  | r :: rest, acc =>
    let acc' : MetaAcc :=
      ⟨r.overview, r.vote_average,
       (match r.genre_ids with | some g => g | none => acc.gids), some (candYear r)⟩
    if r.overview ≠ "" then acc' else metaLoop2 rest acc'

/-- The two-loop resolution over the remote results: loop 1 only when the
search year is truthy, loop 2 only when no overview was found yet. -/
def metaResolve (searchYear : Option String) (results : List Candidate) : MetaAcc :=
  let acc0 : MetaAcc := ⟨"", none, [], searchYear⟩
  let acc1 := if truthy searchYear then metaLoop1 (searchYear.getD "") results acc0 else acc0
  if acc1.overview = "" then metaLoop2 results acc1 else acc1

/-- `ImageItem.load_metadata`: exact-cache read, else remote search, the two
result loops, genre naming, and persistence of both files iff the overview is
non-empty.  A failing request (`Except.error`) is caught by the source's
`except` block, which leaves the `__init__` defaults in place and sets the
synopsis to `"Synopsis not available"`. -/
def load_metadata (searchTitle : String) (searchYear : Option String)
    (st : CacheState) (remote : Except Unit (List Candidate)) : MetaResult × CacheState :=
  let cacheFile := synKey searchTitle searchYear
  let metaFile := metaKey searchTitle searchYear
  match getA st.syn cacheFile with
  | some txt =>
    match getA st.meta metaFile with
    | some m =>
      match parseMetaFields searchYear m with
      | some (r, gs, yr) =>
        ({ imdb_rating := r, genres := gs, release_year := yr, synopsis := txt }, st)
      | none =>
        ({ imdb_rating := none, genres := [], release_year := searchYear, synopsis := txt }, st)
    | none =>
      ({ imdb_rating := none, genres := [], release_year := searchYear, synopsis := txt }, st)
  | none =>
    match remote with
    | .error _ =>
      ({ imdb_rating := none, genres := [], release_year := searchYear,
         synopsis := "Synopsis not available" }, st)
    | .ok results =>
      let acc2 := metaResolve searchYear results
      let gnames := genres_named acc2.gids
      let res : MetaResult :=
        { imdb_rating := acc2.rating, genres := gnames, release_year := acc2.ryear,
          synopsis := acc2.overview }
      if acc2.overview ≠ "" then
        (res, { syn := setA st.syn cacheFile acc2.overview,
                meta := setA st.meta metaFile (writeMetaLine acc2.rating gnames acc2.ryear) })
      else (res, st)

/-- One `/search/tv` result as the series lookups read it. -/
structure TVCandidate where
  name : String
  first_air_date : String
  overview : String
  vote_average : Option String
  genre_ids : Option (List Nat)
deriving DecidableEq

/-- Python `str.lower()` (ASCII letters). -/
def lowerStr (s : String) : String := String.mk (s.data.map Char.toLower)

/-- Python `needle in hay` (contiguous substring). -/
def isSubstr (needle hay : List Char) : Bool :=
  hay.tails.any (fun t => needle.isPrefixOf t)

/-- `result.get("first_air_date", "")[:4] if result.get("first_air_date") else None`. -/
def tvYear (r : TVCandidate) : Option String :=
  if r.first_air_date ≠ "" then some (String.mk (r.first_air_date.data.take 4)) else none

/-- The candidate score: `100` for an exact case-insensitive name match, else
`50` for a substring match, plus `100` when a known year equals the
candidate's first-air year. -/
def candScore (seriesName : String) (year : Option String) (r : TVCandidate) : Int :=
  (if lowerStr r.name = lowerStr seriesName then (100 : Int)
   else if isSubstr (lowerStr seriesName).data (lowerStr r.name).data then 50
   else 0) +
  (match year, tvYear r with
   | some y, some ry => if y ≠ "" && y = ry then (100 : Int) else 0
   | _, _ => 0)

/-- The selection fold: `if score > best_score: best_score, best_match = score, result`. -/
def bestGo (sn : String) (y : Option String) : Int → Option TVCandidate → List TVCandidate →
    Option TVCandidate
  | _, best, [] => best
  | bs, best, r :: rest =>
    if candScore sn y r > bs then bestGo sn y (candScore sn y r) (some r) rest
    else bestGo sn y bs best rest

/-- `best_match` with `best_score = -1` initially. -/
def bestMatch (sn : String) (y : Option String) (cands : List TVCandidate) :
    Option TVCandidate :=
  bestGo sn y (-1) none cands

structure SynResult where
  overview : Option String
  rating : Option String
  genres : List String
  ryear : Option String
deriving DecidableEq

/-- `MediaOrganizerApp.get_series_synopsis` (the `return_meta=True` shape):
cache read, else `/search/tv` plus scored disambiguation; persists both cache
files iff the chosen overview is non-empty; the `except` block returns
all-absent values. -/
def get_series_synopsis (seriesName : String) (st : CacheState)
    (remote : Except Unit (List TVCandidate)) : SynResult × CacheState :=
  let year := extract_year seriesName
  let cacheFile := synKey seriesName year
  let metaFile := metaKey seriesName year
  match getA st.syn cacheFile with
  | some txt =>
    match getA st.meta metaFile with
    | some m =>
      match parseMetaFields year m with
      | some (r, gs, yr) => ({ overview := some txt, rating := r, genres := gs, ryear := yr }, st)
      | none => ({ overview := some txt, rating := none, genres := [], ryear := year }, st)
    | none => ({ overview := some txt, rating := none, genres := [], ryear := year }, st)
  | none =>
    match remote with
    | .error _ => ({ overview := none, rating := none, genres := [], ryear := none }, st)
    | .ok results =>
      match bestMatch seriesName year results with
      | some b =>
        let gnames := genres_named (match b.genre_ids with | some g => g | none => [])
        let ryr : Option String :=
          if b.first_air_date ≠ "" then some (String.mk (b.first_air_date.data.take 4))
          else year
        if b.overview ≠ "" then
          ({ overview := some b.overview, rating := b.vote_average, genres := gnames,
             ryear := ryr },
           { syn := setA st.syn cacheFile b.overview,
             meta := setA st.meta metaFile (writeMetaLine b.vote_average gnames ryr) })
        else ({ overview := some b.overview, rating := b.vote_average, genres := gnames,
                ryear := ryr }, st)
      | none => ({ overview := some "", rating := none, genres := [], ryear := year }, st)

/-- Stage 2 of `load_poster`: scan the poster-cache directory for file names
whose lowercased name starts with the lowercased quoted title.  With a known
year, keep the entry whose embedded `(19|20)\d{2}` match is nearest to it
(strictly-smaller distance updates, so first-seen wins ties); with no known
year, take the first prefix match. -/
def scanSimilar (searchTitle : String) (searchYear : Option String)
    (cache : List (String × String)) : Option String :=
  if truthy searchYear then
    let y := digitsVal (searchYear.getD "").data
    (cache.foldl (fun (acc : Option Nat × Option String) kv =>
      if (lowerStr (pyquote searchTitle)).data.isPrefixOf (lowerStr kv.1).data then
        match scanP looseYearAt none kv.1.data with
        | some suf =>
          let yr := digitsVal (suf.take 4)
          let diff := max yr y - min yr y
          match acc.1 with
          | some bd => if diff < bd then (some diff, some kv.1) else acc
          | none => (some diff, some kv.1)
        | none => acc
      else acc) (none, none)).2
  else
    (cache.find? (fun kv =>
      (lowerStr (pyquote searchTitle)).data.isPrefixOf (lowerStr kv.1).data)).map (·.1)

/-- Stage 3 candidate selection: first year-matching result with a poster (or
backdrop) reference, else the first result with one. -/
def pickPoster (searchYear : Option String) (results : List Candidate) : Option String :=
  let p1 :=
    if truthy searchYear then
      results.findSome? (fun r =>
        if candYear r = searchYear.getD "" then pyOr r.poster_path r.backdrop_path else none)
    else none
  match p1 with
  | some p => some p
  | none => results.findSome? (fun r => pyOr r.poster_path r.backdrop_path)

/-- `ImageItem.load_poster`: exact cache hit, similar-cache fallback, then the
remote search plus image download, persisting the downloaded bytes under the
exact key.  `valid` models `QPixmap.isNull` (decodability of the bytes);
`imgBytes` models the image-endpoint response for a poster reference.  The
returned `Nat` counts remote search queries (a successful one is followed by
its image download). -/
def load_poster (valid : String → Bool) (searchTitle : String) (searchYear : Option String)
    (cache : List (String × String)) (remote : Except Unit (List Candidate))
    (imgBytes : String → String) : Option String × List (String × String) × Nat :=
  let key := posterKey searchTitle searchYear
  let stage3 : Option String × List (String × String) × Nat :=
    match remote with
    | .error _ => (none, cache, 1)
    | .ok results =>
      match pickPoster searchYear results with
      | some p =>
        let img := imgBytes p
        let cache' := setA cache key img
        (if valid img then some img else none, cache', 1)
      | none => (none, cache, 1)
  let stage2 : Option String × List (String × String) × Nat :=
    match scanSimilar searchTitle searchYear cache with
    | some fname =>
      match getA cache fname with
      | some d => if valid d then (some d, cache, 0) else stage3
      | none => stage3
    | none => stage3
  match getA cache key with
  | some b => if valid b then (some b, cache, 0) else stage2
  | none => stage2

/-- `os.path.splitext` on a bare file name: split at the last dot, unless
every character before the last dot is itself a dot (leading dots of a
dotfile are not an extension separator). -/
def splitext (name : String) : String × String :=
  match name.data.reverse.findIdx? (· = '.') with
  | none => (name, "")
  | some r =>
    let dotIndex := name.data.length - 1 - r
    if (name.data.take dotIndex).any (· ≠ '.') then
      (String.mk (name.data.take dotIndex), String.mk (name.data.drop dotIndex))
    else (name, "")

/-- The numbered candidate `f"{base_name}_{counter}{extension}"`. -/
def numberedName (base ext : String) (k : Nat) : String :=
  base ++ "_" ++ Nat.repr k ++ ext

/-- The `while os.path.exists(...)` loop; the directory is finite, so fuel
`existing.length + 1` always suffices (see `uniqueGo_spec`). -/
def uniqueGo (existing : List String) (base ext : String) : Nat → Nat → String
  | _, 0 => ""
  | counter, fuel + 1 =>
    let cand := numberedName base ext counter
    if existing.contains cand then uniqueGo existing base ext (counter + 1) fuel
    else cand

/-- `MediaOrganizerApp.get_unique_filename`, with the destination directory
contents as a list of occupied names. -/
def get_unique_filename (existing : List String) (fileName : String) : String :=
  if existing.contains fileName then
    uniqueGo existing (splitext fileName).1 (splitext fileName).2 1 (existing.length + 1)
  else fileName

/-- The two candidates of the claim's disambiguation example. -/
def upCand : TVCandidate :=
  { name := "Up", first_air_date := "2009", overview := "A",
    vote_average := none, genre_ids := none }

def upAllNightCand : TVCandidate :=
  { name := "Up All Night", first_air_date := "2009", overview := "B",
    vote_average := none, genre_ids := none }

/-- A remote result with no overview but a rating, as TMDB can return. -/
def noOverviewCand : Candidate :=
  { release_date := "2001-01-01", first_air_date := "", poster_path := none,
    backdrop_path := none, overview := "", vote_average := some "7.0",
    genre_ids := some [28] }

/-- A remote candidate carrying a poster reference. -/
def posterCand : Candidate :=
  { release_date := "", first_air_date := "", poster_path := some "/p.jpg",
    backdrop_path := none, overview := "", vote_average := none, genre_ids := none }

/-! ## Theorems -/

theorem scanP_eq_some (f : Option Char → List Char → Option α)
    (hend : ∀ p, f p [] = none) :
    ∀ (cs : List Char) (prev : Option Char) (y : α),
    scanP f prev cs = some y ↔
      ∃ j, j < cs.length ∧ f (prevAt prev cs j) (cs.drop j) = some y ∧
        ∀ i, i < j → f (prevAt prev cs i) (cs.drop i) = none := by
  intro cs
  induction cs with
  | nil =>
    intro prev y
    simp [scanP, hend]
  | cons c rest ih =>
    intro prev y
    constructor
    · intro h
      rw [scanP] at h
      rcases (Option.orElse_eq_some _ _ _).mp h with h0 | ⟨hn, htail⟩
      · exact ⟨0, by simp, by simpa [prevAt] using h0, by omega⟩
      · rcases (ih (some c) y).mp htail with ⟨j, hjlt, hj, hlt⟩
        refine ⟨j + 1, by simpa using Nat.succ_lt_succ hjlt, ?_, ?_⟩
        · have : prevAt prev (c :: rest) (j + 1) = prevAt (some c) rest j := by
            cases j <;> simp [prevAt]
          rw [this]; simpa using hj
        · intro i hi
          cases i with
          | zero => simpa [prevAt] using hn
          | succ i' =>
            have : prevAt prev (c :: rest) (i' + 1) = prevAt (some c) rest i' := by
              cases i' <;> simp [prevAt]
            rw [this]
            simpa using hlt i' (by omega)
    · rintro ⟨j, hjlt, hj, hlt⟩
      rw [scanP]
      cases j with
      | zero =>
        apply (Option.orElse_eq_some _ _ _).mpr
        exact Or.inl (by simpa [prevAt] using hj)
      | succ j' =>
        apply (Option.orElse_eq_some _ _ _).mpr
        refine Or.inr ⟨by simpa [prevAt] using hlt 0 (by omega), ?_⟩
        apply (ih (some c) y).mpr
        refine ⟨j', by simpa using Nat.lt_of_succ_lt_succ hjlt, ?_, ?_⟩
        · have : prevAt prev (c :: rest) (j' + 1) = prevAt (some c) rest j' := by
            cases j' <;> simp [prevAt]
          rw [← this]; simpa using hj
        · intro i hi
          have : prevAt prev (c :: rest) (i + 1) = prevAt (some c) rest i := by
            cases i <;> simp [prevAt]
          rw [← this]
          simpa using hlt (i + 1) (by omega)

theorem scanP_eq_none (f : Option Char → List Char → Option α)
    (hend : ∀ p, f p [] = none) :
    ∀ (cs : List Char) (prev : Option Char),
    scanP f prev cs = none ↔
      ∀ j, f (prevAt prev cs j) (cs.drop j) = none := by
  intro cs
  induction cs with
  | nil =>
    intro prev
    simp only [scanP]
    constructor
    · intro h j
      cases j <;> simp [prevAt, hend, h]
    · intro _; exact hend prev
  | cons c rest ih =>
    intro prev
    rw [scanP]
    constructor
    · intro h j
      have h0 : f prev (c :: rest) = none := by
        cases hf : f prev (c :: rest) with
        | none => rfl
        | some v => rw [hf] at h; simp [Option.orElse] at h
      have htail : scanP f (some c) rest = none := by
        rw [h0] at h; simpa [Option.orElse] using h
      cases j with
      | zero => simpa [prevAt] using h0
      | succ j' =>
        have : prevAt prev (c :: rest) (j' + 1) = prevAt (some c) rest j' := by
          cases j' <;> simp [prevAt]
        rw [this]
        simpa using (ih (some c)).mp htail j'
    · intro h
      have h0 : f prev (c :: rest) = none := by simpa [prevAt] using h 0
      rw [h0]
      have : scanP f (some c) rest = none := by
        apply (ih (some c)).mpr
        intro j
        have heq : prevAt prev (c :: rest) (j + 1) = prevAt (some c) rest j := by
          cases j <;> simp [prevAt]
        rw [← heq]
        simpa using h (j + 1)
      simpa [Option.orElse] using this

theorem toNat_ofNat_valid {n : Nat} (h : n.isValidChar) : (Char.ofNat n).toNat = n := by
  simp only [Char.ofNat, dif_pos h]
  rfl

theorem char_toNat_lt (c : Char) : c.toNat < 1114112 := by
  have h : c.toNat.isValidChar := c.valid
  rcases h with h | ⟨h1, h2⟩ <;> omega

theorem udec_cons (b : Nat) (rest : List Nat) :
    udec (b :: rest) =
      (if b < 128 then Char.ofNat b :: udec rest
      else if b < 224 then
        Char.ofNat ((b - 192) * 64 + (rest.headD 0 - 128)) :: udec (rest.drop 1)
      else if b < 240 then
        Char.ofNat ((b - 224) * 4096 + (rest.headD 0 - 128) * 64 + ((rest.drop 1).headD 0 - 128))
          :: udec (rest.drop 2)
      else
        Char.ofNat ((b - 240) * 262144 + (rest.headD 0 - 128) * 4096 +
            ((rest.drop 1).headD 0 - 128) * 64 + ((rest.drop 2).headD 0 - 128))
          :: udec (rest.drop 3)) := by
  rw [udec.eq_def]

theorem charBytes_lt (c : Char) : ∀ b ∈ charBytes c, b < 256 := by
  intro b hb
  have hlt := char_toNat_lt c
  unfold charBytes at hb
  by_cases h1 : c.toNat < 128
  · rw [if_pos h1] at hb
    simp at hb
    omega
  · rw [if_neg h1] at hb
    by_cases h2 : c.toNat < 2048
    · rw [if_pos h2] at hb
      simp at hb
      rcases hb with hb | hb <;> omega
    · rw [if_neg h2] at hb
      by_cases h3 : c.toNat < 65536
      · rw [if_pos h3] at hb
        simp at hb
        rcases hb with hb | hb | hb <;> omega
      · rw [if_neg h3] at hb
        simp at hb
        rcases hb with hb | hb | hb | hb <;> omega

theorem hexVal_hexDig {n : Nat} (h : n < 16) : hexVal (hexDig n) = n := by
  revert n h
  decide

theorem safe_lt {b : Nat} (h : quoteSafe b = true) : b < 128 := by
  simp [quoteSafe] at h
  rcases h with h | h | h | h | h | h | h | h <;> omega

theorem safe_ne_percent {b : Nat} (h : quoteSafe b = true) : Char.ofNat b ≠ '%' := by
  intro hc
  have hb : b < 128 := safe_lt h
  have htn : (Char.ofNat b).toNat = b :=
    toNat_ofNat_valid (Or.inl (by omega))
  rw [hc] at htn
  have h37 : ('%').toNat = 37 := by decide
  rw [h37] at htn
  simp [quoteSafe] at h
  omega

theorem pdec_encBytes : ∀ bs : List Nat, (∀ b ∈ bs, b < 256) →
    pdec (bs.flatMap encByte) = bs := by
  intro bs
  induction bs with
  | nil =>
    intro _
    simp only [List.flatMap_nil]
    rw [pdec]
  | cons b rest ih =>
    intro hlt
    have hb : b < 256 := hlt b (by simp)
    have hrest := ih (fun x hx => hlt x (by simp [hx]))
    simp only [List.flatMap_cons]
    by_cases hs : quoteSafe b
    · have hne := safe_ne_percent hs
      have htn : (Char.ofNat b).toNat = b :=
        toNat_ofNat_valid (Or.inl (by have := safe_lt hs; omega))
      rw [encByte, if_pos hs]
      simp only [List.singleton_append]
      rw [pdec, if_neg hne, htn, hrest]
    · rw [encByte, if_neg hs]
      simp only [List.cons_append, List.nil_append]
      rw [pdec, if_pos rfl]
      simp only [List.headD_cons, List.drop_succ_cons, List.drop_zero]
      rw [hexVal_hexDig (by omega : b / 16 < 16), hexVal_hexDig (by omega : b % 16 < 16),
        hrest]
      congr 1
      omega

theorem udec_charBytes (c : Char) (L : List Nat) :
    udec (charBytes c ++ L) = c :: udec L := by
  have hlt := char_toNat_lt c
  have hofn := Char.ofNat_toNat c
  unfold charBytes
  by_cases h1 : c.toNat < 128
  · rw [if_pos h1]
    simp only [List.singleton_append]
    rw [udec_cons, if_pos h1, hofn]
  · rw [if_neg h1]
    by_cases h2 : c.toNat < 2048
    · rw [if_pos h2]
      have e1 : ¬ (192 + c.toNat / 64 < 128) := by omega
      have e2 : 192 + c.toNat / 64 < 224 := by omega
      simp only [List.cons_append, List.nil_append]
      rw [udec_cons, if_neg e1, if_pos e2]
      simp only [List.headD_cons, List.drop_succ_cons, List.drop_zero]
      have harg : (192 + c.toNat / 64 - 192) * 64 + (128 + c.toNat % 64 - 128) = c.toNat := by
        omega
      rw [harg, hofn]
    · rw [if_neg h2]
      by_cases h3 : c.toNat < 65536
      · rw [if_pos h3]
        have e1 : ¬ (224 + c.toNat / 4096 < 128) := by omega
        have e2 : ¬ (224 + c.toNat / 4096 < 224) := by omega
        have e3 : 224 + c.toNat / 4096 < 240 := by omega
        simp only [List.cons_append, List.nil_append]
        rw [udec_cons, if_neg e1, if_neg e2, if_pos e3]
        simp only [List.headD_cons, List.drop_succ_cons, List.drop_zero]
        have harg : (224 + c.toNat / 4096 - 224) * 4096 +
            (128 + c.toNat / 64 % 64 - 128) * 64 + (128 + c.toNat % 64 - 128) = c.toNat := by
          omega
        rw [harg, hofn]
      · rw [if_neg h3]
        have e1 : ¬ (240 + c.toNat / 262144 < 128) := by omega
        have e2 : ¬ (240 + c.toNat / 262144 < 224) := by omega
        have e3 : ¬ (240 + c.toNat / 262144 < 240) := by omega
        simp only [List.cons_append, List.nil_append]
        rw [udec_cons, if_neg e1, if_neg e2, if_neg e3]
        simp only [List.headD_cons, List.drop_succ_cons, List.drop_zero]
        have harg : (240 + c.toNat / 262144 - 240) * 262144 +
            (128 + c.toNat / 4096 % 64 - 128) * 4096 +
            (128 + c.toNat / 64 % 64 - 128) * 64 + (128 + c.toNat % 64 - 128) = c.toNat := by
          omega
        rw [harg, hofn]

theorem udec_strBytes (s : String) : udec (strBytes s) = s.data := by
  unfold strBytes
  induction s.data with
  | nil =>
    simp only [List.flatMap_nil]
    rw [udec]
  | cons c rest ih =>
    simp only [List.flatMap_cons]
    rw [udec_charBytes, ih]

theorem strBytes_lt (s : String) : ∀ b ∈ strBytes s, b < 256 := by
  intro b hb
  unfold strBytes at hb
  rcases List.mem_flatMap.mp hb with ⟨c, _, hc⟩
  exact charBytes_lt c b hc

theorem pyquote_injective {a b : String} (h : pyquote a = pyquote b) : a = b := by
  have hdata : ((strBytes a).flatMap encByte) = ((strBytes b).flatMap encByte) :=
    congrArg String.data h
  have hbytes : strBytes a = strBytes b := by
    have ha := pdec_encBytes (strBytes a) (strBytes_lt a)
    have hb := pdec_encBytes (strBytes b) (strBytes_lt b)
    rw [← ha, ← hb, hdata]
  have : a.data = b.data := by
    rw [← udec_strBytes a, ← udec_strBytes b, hbytes]
  exact String.ext this

theorem pyquote_append (a b : String) : pyquote (a ++ b) = pyquote a ++ pyquote b := by
  apply String.ext
  show ((strBytes (a ++ b)).flatMap encByte) =
    ((strBytes a).flatMap encByte) ++ ((strBytes b).flatMap encByte)
  have : strBytes (a ++ b) = strBytes a ++ strBytes b := by
    unfold strBytes
    rw [String.data_append, List.flatMap_append]
  rw [this, List.flatMap_append]

theorem getA_setA_self (c : List (String × String)) (k v : String) :
    getA (setA c k v) k = some v := by
  induction c with
  | nil => simp [setA, getA]
  | cons kv rest ih =>
    by_cases h : kv.1 = k
    · simp [setA, getA, h]
    · simp [setA, getA, h, ih]

theorem setA_fresh_length (c : List (String × String)) (k v : String)
    (h : getA c k = none) : (setA c k v).length = c.length + 1 := by
  induction c with
  | nil => simp [setA]
  | cons kv rest ih =>
    rw [getA] at h
    by_cases hk : kv.1 = k
    · rw [if_pos hk] at h
      exact absurd h (by simp)
    · rw [if_neg hk] at h
      simp [setA, hk, ih h]

theorem toDigitsCore_append (b : Nat) : ∀ (f n : Nat) (ds : List Char),
    Nat.toDigitsCore b f n ds = Nat.toDigitsCore b f n [] ++ ds := by
  intro f
  induction f with
  | zero => intro n ds; simp [Nat.toDigitsCore]
  | succ f ih =>
    intro n ds
    simp only [Nat.toDigitsCore]
    by_cases h : n / b = 0
    · simp [h]
    · rw [if_neg h, if_neg h, ih (n / b) (Nat.digitChar (n % b) :: ds),
        ih (n / b) [Nat.digitChar (n % b)]]
      simp

theorem digitChar_toNat {m : Nat} (h : m < 10) : (Nat.digitChar m).toNat = 48 + m := by
  revert m h
  decide

theorem digitsVal_toDigitsCore : ∀ f n, n < f → ∀ a,
    (Nat.toDigitsCore 10 f n []).foldl (fun a c => a * 10 + (c.toNat - 48)) a
      = a * 10 ^ (Nat.toDigitsCore 10 f n []).length + n := by
  intro f
  induction f with
  | zero => intro n hn; omega
  | succ f ih =>
    intro n hn a
    simp only [Nat.toDigitsCore]
    by_cases h : n / 10 = 0
    · rw [if_pos h]
      have hd : (Nat.digitChar (n % 10)).toNat = 48 + n % 10 :=
        digitChar_toNat (Nat.mod_lt n (by omega))
      simp only [List.foldl_cons, List.foldl_nil, List.length_cons, List.length_nil,
        pow_one, pow_zero, hd]
      omega
    · rw [if_neg h]
      rw [toDigitsCore_append 10 f (n / 10) [Nat.digitChar (n % 10)]]
      rw [List.foldl_append, List.length_append]
      have hrec := ih (n / 10) (by omega) a
      rw [hrec]
      have hd : (Nat.digitChar (n % 10)).toNat = 48 + n % 10 :=
        digitChar_toNat (Nat.mod_lt n (by omega))
      simp only [List.foldl_cons, List.foldl_nil, List.length_cons, List.length_nil, hd]
      rw [pow_succ]
      have hmod : (48 : Nat) + n % 10 - 48 = n % 10 := by omega
      rw [hmod]
      ring_nf
      omega

theorem digitsVal_repr (n : Nat) : digitsVal (Nat.repr n).data = n := by
  have : (Nat.repr n).data = Nat.toDigitsCore 10 (n + 1) n [] := rfl
  rw [digitsVal, this]
  have := digitsVal_toDigitsCore (n + 1) n (by omega) 0
  simpa using this

theorem repr_injective {m n : Nat} (h : Nat.repr m = Nat.repr n) : m = n := by
  rw [← digitsVal_repr m, ← digitsVal_repr n, h]

theorem numberedName_injective (b e : String) {k1 k2 : Nat}
    (h : numberedName b e k1 = numberedName b e k2) : k1 = k2 := by
  unfold numberedName at h
  have hd : (b ++ "_" ++ Nat.repr k1 ++ e).data = (b ++ "_" ++ Nat.repr k2 ++ e).data :=
    congrArg String.data h
  simp only [String.data_append, List.append_assoc] at hd
  have h1 := List.append_cancel_left hd
  have h2 := List.append_cancel_left h1
  have h3 := List.append_cancel_right h2
  exact repr_injective (String.ext h3)

/-- Pigeonhole: among the first `existing.length + 1` numbered candidates, at
least one name is unoccupied. -/
theorem numbered_free_exists (existing : List String) (b e : String) :
    ∃ i, i < existing.length + 1 ∧
      existing.contains (numberedName b e (1 + i)) = false := by
  by_contra hall
  push_neg at hall
  have hmem : ∀ i < existing.length + 1, numberedName b e (1 + i) ∈ existing := by
    intro i hi
    have := hall i hi
    have hne : existing.contains (numberedName b e (1 + i)) = true := by
      cases hc : existing.contains (numberedName b e (1 + i)) with
      | false => exact absurd hc this
      | true => rfl
    simpa using hne
  set cands := (List.range (existing.length + 1)).map (fun i => numberedName b e (1 + i))
    with hcands
  have hnodup : cands.Nodup := by
    apply List.Nodup.map
    · intro i j hij
      have := numberedName_injective b e hij
      omega
    · exact List.nodup_range _
  have hsub : cands ⊆ existing := by
    intro x hx
    rw [hcands, List.mem_map] at hx
    rcases hx with ⟨i, hi, rfl⟩
    exact hmem i (List.mem_range.mp hi)
  have hlen : cands.length ≤ existing.length := (List.Nodup.subperm hnodup hsub).length_le
  rw [hcands] at hlen
  simp at hlen

theorem uniqueGo_spec (existing : List String) (b e : String) : ∀ (fuel counter : Nat),
    (∃ i, i < fuel ∧ existing.contains (numberedName b e (counter + i)) = false) →
    ∃ i, i < fuel ∧ existing.contains (numberedName b e (counter + i)) = false ∧
      (∀ j, j < i → existing.contains (numberedName b e (counter + j)) = true) ∧
      uniqueGo existing b e counter fuel = numberedName b e (counter + i) := by
  intro fuel
  induction fuel with
  | zero =>
    intro counter h
    rcases h with ⟨i, hi, _⟩
    omega
  | succ fuel ih =>
    intro counter h
    cases hc : existing.contains (numberedName b e counter) with
    | false =>
      refine ⟨0, by omega, by simpa using hc, by omega, ?_⟩
      have hmem : numberedName b e counter ∉ existing := by simpa using hc
      simp [uniqueGo, hmem]
    | true =>
      have hex : ∃ i, i < fuel ∧
          existing.contains (numberedName b e (counter + 1 + i)) = false := by
        rcases h with ⟨i, hi, hfree⟩
        cases i with
        | zero => rw [Nat.add_zero] at hfree; rw [hc] at hfree; exact absurd hfree (by simp)
        | succ i' =>
          exact ⟨i', by omega, by have : counter + 1 + i' = counter + (i' + 1) := by omega
                                  rw [this]; exact hfree⟩
      rcases ih (counter + 1) hex with ⟨i, hi, hfree, hocc, heq⟩
      refine ⟨i + 1, by omega, ?_, ?_, ?_⟩
      · have : counter + (i + 1) = counter + 1 + i := by omega
        rw [this]; exact hfree
      · intro j hj
        cases j with
        | zero => simpa using hc
        | succ j' =>
          have : counter + (j' + 1) = counter + 1 + j' := by omega
          rw [this]; exact hocc j' (by omega)
      · have hmem : numberedName b e counter ∈ existing := by simpa using hc
        rw [uniqueGo]
        simp only [hmem, hc]
        simp only [if_true]
        rw [heq]
        congr 1
        omega

theorem bareYearAt_nil (p : Option Char) : bareYearAt p [] = none := rfl

theorem brYearAt_nil (ob cb : Char) (p : Option Char) : brYearAt ob cb p [] = none := rfl

theorem bareYearAt_some {p : Option Char} {cs z : List Char}
    (h : bareYearAt p cs = some z) :
    ∃ a b c d rest, cs = a :: b :: c :: d :: rest ∧ z = [a, b, c, d] ∧
      yearCore a b c d = true := by
  unfold bareYearAt at h
  split at h
  · rename_i a b c d rest
    split at h
    · rename_i hcond
      simp at hcond
      refine ⟨a, b, c, d, rest, rfl, by simpa using h.symm, hcond.1.2⟩
    · exact absurd h (by simp)
  · exact absurd h (by simp)

theorem brYearAt_some {ob cb : Char} {p : Option Char} {cs z : List Char}
    (h : brYearAt ob cb p cs = some z) :
    ∃ o a b c d e rest, cs = o :: a :: b :: c :: d :: e :: rest ∧ z = [a, b, c, d] ∧
      yearCore a b c d = true := by
  unfold brYearAt at h
  split at h
  · rename_i o a b c d e rest
    split at h
    · rename_i hcond
      simp at hcond
      refine ⟨o, a, b, c, d, e, rest, rfl, by simpa using h.symm, hcond.1.2⟩
    · exact absurd h (by simp)
  · exact absurd h (by simp)

theorem yearCore_props {a b c d : Char} (h : yearCore a b c d = true) :
    (∀ x ∈ [a, b, c, d], isDig x = true) ∧
    1900 ≤ digitsVal [a, b, c, d] ∧ digitsVal [a, b, c, d] ≤ 2029 := by
  simp only [yearCore, isDig, Bool.or_eq_true, Bool.and_eq_true, decide_eq_true_eq] at h
  have hval : digitsVal [a, b, c, d] =
      ((a.toNat - 48) * 10 + (b.toNat - 48)) * 100 + (c.toNat - 48) * 10 + (d.toNat - 48) := by
    simp only [digitsVal, List.foldl_cons, List.foldl_nil]
    omega
  have h1 : ('1').toNat = 49 := rfl
  have h9 : ('9').toNat = 57 := rfl
  have h2 : ('2').toNat = 50 := rfl
  have h0 : ('0').toNat = 48 := rfl
  rcases h with ⟨⟨⟨ha, hb⟩, hc⟩, hd⟩ | ⟨⟨⟨ha, hb⟩, hc⟩, hd⟩ <;>
    subst ha <;> subst hb <;>
    refine ⟨?_, by rw [hval]; simp only [h1, h9, h2, h0]; omega,
      by rw [hval]; simp only [h1, h9, h2, h0]; omega⟩ <;>
    intro x hx <;>
    simp only [List.mem_cons, List.not_mem_nil, or_false] at hx <;>
    rcases hx with rfl | rfl | rfl | rfl <;>
    simp [isDig] <;> omega

/-- **C6.** For every input string, `extract_year` returns a 4-digit token in
1900–2029 occurring in the input, searched under the fixed pattern priority
bare token (with non-digit boundaries), then bracketed, then parenthesized,
leftmost match first for each pattern; it returns `none` exactly when no
pattern matches anywhere.  In particular
`extract_year "Show.Name.2021.1080p" = some "2021"` and
`extract_year "NoYearHere" = none`. -/
theorem C6_extract_year :
    extract_year "Show.Name.2021.1080p" = some "2021" ∧
    extract_year "NoYearHere" = none ∧
    (∀ s y, extract_year s = some y →
      y.data.length = 4 ∧ (∀ c ∈ y.data, isDig c = true) ∧
      1900 ≤ digitsVal y.data ∧ digitsVal y.data ≤ 2029 ∧
      (∃ pre post, s.data = pre ++ y.data ++ post)) ∧
    (∀ s y, extract_year s = some y ↔
      ((∃ j, j < s.data.length ∧
          bareYearAt (prevAt none s.data j) (s.data.drop j) = some y.data ∧
          ∀ i, i < j → bareYearAt (prevAt none s.data i) (s.data.drop i) = none) ∨
       ((∀ j, bareYearAt (prevAt none s.data j) (s.data.drop j) = none) ∧
        ∃ j, j < s.data.length ∧
          brYearAt '[' ']' (prevAt none s.data j) (s.data.drop j) = some y.data ∧
          ∀ i, i < j → brYearAt '[' ']' (prevAt none s.data i) (s.data.drop i) = none) ∨
       ((∀ j, bareYearAt (prevAt none s.data j) (s.data.drop j) = none) ∧
        (∀ j, brYearAt '[' ']' (prevAt none s.data j) (s.data.drop j) = none) ∧
        ∃ j, j < s.data.length ∧
          brYearAt '(' ')' (prevAt none s.data j) (s.data.drop j) = some y.data ∧
          ∀ i, i < j → brYearAt '(' ')' (prevAt none s.data i) (s.data.drop i) = none))) := by
  refine ⟨by decide, by decide, ?_, ?_⟩
  · intro s y h
    unfold extract_year at h
    have main : ∃ z, y.data = z ∧
        ((∃ pre post, s.data = pre ++ z ++ post) ∧
         ∃ a b c d, z = [a, b, c, d] ∧ yearCore a b c d = true) := by
      split at h
      · rename_i z hz
        rcases (scanP_eq_some bareYearAt bareYearAt_nil s.data none z).mp hz with
          ⟨j, hj, hat, _⟩
        rcases bareYearAt_some hat with ⟨a, b, c, d, rest, hdrop, hzz, hcore⟩
        refine ⟨z, (congrArg String.data (Option.some.inj h)).symm, ⟨?_, a, b, c, d, hzz, hcore⟩⟩
        refine ⟨s.data.take j, rest, ?_⟩
        conv_lhs => rw [← List.take_append_drop j s.data]
        rw [hdrop, hzz]
        simp
      · split at h
        · rename_i z hz
          rcases (scanP_eq_some (brYearAt '[' ']') (brYearAt_nil '[' ']') s.data none z).mp
            hz with ⟨j, hj, hat, _⟩
          rcases brYearAt_some hat with ⟨o, a, b, c, d, e, rest, hdrop, hzz, hcore⟩
          refine ⟨z, (congrArg String.data (Option.some.inj h)).symm, ⟨?_, a, b, c, d, hzz, hcore⟩⟩
          refine ⟨s.data.take j ++ [o], e :: rest, ?_⟩
          conv_lhs => rw [← List.take_append_drop j s.data]
          rw [hdrop, hzz]
          simp
        · split at h
          · rename_i z hz
            rcases (scanP_eq_some (brYearAt '(' ')') (brYearAt_nil '(' ')') s.data none z).mp
              hz with ⟨j, hj, hat, _⟩
            rcases brYearAt_some hat with ⟨o, a, b, c, d, e, rest, hdrop, hzz, hcore⟩
            refine ⟨z, (congrArg String.data (Option.some.inj h)).symm, ⟨?_, a, b, c, d, hzz, hcore⟩⟩
            refine ⟨s.data.take j ++ [o], e :: rest, ?_⟩
            conv_lhs => rw [← List.take_append_drop j s.data]
            rw [hdrop, hzz]
            simp
          · exact absurd h (by simp)
    rcases main with ⟨z, hyz, hocc, a, b, c, d, hz4, hcore⟩
    rcases yearCore_props hcore with ⟨hdig, hlo, hhi⟩
    subst hz4
    rw [hyz]
    exact ⟨rfl, hdig, hlo, hhi, hocc⟩
  · intro s y
    unfold extract_year
    constructor
    · intro h
      split at h
      · rename_i z hz
        have hyz : y.data = z := (congrArg String.data (Option.some.inj h)).symm
        rcases (scanP_eq_some bareYearAt bareYearAt_nil s.data none z).mp hz with
          ⟨j, hj, hat, hfirst⟩
        exact Or.inl ⟨j, hj, hyz ▸ hat, hfirst⟩
      · rename_i hbare
        have hbnone := (scanP_eq_none bareYearAt bareYearAt_nil s.data none).mp hbare
        split at h
        · rename_i z hz
          have hyz : y.data = z := (congrArg String.data (Option.some.inj h)).symm
          rcases (scanP_eq_some (brYearAt '[' ']') (brYearAt_nil '[' ']') s.data none z).mp
            hz with ⟨j, hj, hat, hfirst⟩
          exact Or.inr (Or.inl ⟨hbnone, j, hj, hyz ▸ hat, hfirst⟩)
        · rename_i hsq
          have hsqnone :=
            (scanP_eq_none (brYearAt '[' ']') (brYearAt_nil '[' ']') s.data none).mp hsq
          split at h
          · rename_i z hz
            have hyz : y.data = z := (congrArg String.data (Option.some.inj h)).symm
            rcases (scanP_eq_some (brYearAt '(' ')') (brYearAt_nil '(' ')') s.data none
              z).mp hz with ⟨j, hj, hat, hfirst⟩
            exact Or.inr (Or.inr ⟨hbnone, hsqnone, j, hj, hyz ▸ hat, hfirst⟩)
          · exact absurd h (by simp)
    · intro h
      rcases h with ⟨j, hj, hat, hfirst⟩ | ⟨hbnone, j, hj, hat, hfirst⟩ |
        ⟨hbnone, hsqnone, j, hj, hat, hfirst⟩
      · have : scanP bareYearAt none s.data = some y.data :=
          (scanP_eq_some bareYearAt bareYearAt_nil s.data none y.data).mpr
            ⟨j, hj, hat, hfirst⟩
        rw [this]
      · have hb : scanP bareYearAt none s.data = none :=
          (scanP_eq_none bareYearAt bareYearAt_nil s.data none).mpr hbnone
        have : scanP (brYearAt '[' ']') none s.data = some y.data :=
          (scanP_eq_some (brYearAt '[' ']') (brYearAt_nil '[' ']') s.data none y.data).mpr
            ⟨j, hj, hat, hfirst⟩
        rw [hb, this]
      · have hb : scanP bareYearAt none s.data = none :=
          (scanP_eq_none bareYearAt bareYearAt_nil s.data none).mpr hbnone
        have hsq : scanP (brYearAt '[' ']') none s.data = none :=
          (scanP_eq_none (brYearAt '[' ']') (brYearAt_nil '[' ']') s.data none).mpr hsqnone
        have : scanP (brYearAt '(' ')') none s.data = some y.data :=
          (scanP_eq_some (brYearAt '(' ')') (brYearAt_nil '(' ')') s.data none y.data).mpr
            ⟨j, hj, hat, hfirst⟩
        rw [hb, hsq, this]

/-- Witness for C6 at `"Show.Name.2021.1080p"`. -/
theorem C6_extract_year_witness :
    1900 ≤ digitsVal ("2021" : String).data ∧ digitsVal ("2021" : String).data ≤ 2029 ∧
    ∃ pre post, ("Show.Name.2021.1080p" : String).data = pre ++ ("2021" : String).data ++ post := by
  have h := C6_extract_year.2.2.1 "Show.Name.2021.1080p" "2021" (by decide)
  exact ⟨h.2.2.1, h.2.2.2.1, h.2.2.2.2⟩

theorem seTokenAt_nil (p : Option Char) : seTokenAt p [] = none := rfl

/-- A matcher that fails at every position up to the length fails at every
position (past the end the suffix is empty). -/
theorem matcher_none_all {α : Type} {f : Option Char → List Char → Option α}
    (hend : ∀ p, f p [] = none) (cs : List Char) (prev : Option Char)
    (hb : ∀ j, j < cs.length → f (prevAt prev cs j) (cs.drop j) = none) :
    ∀ j, f (prevAt prev cs j) (cs.drop j) = none := by
  intro j
  by_cases h : j < cs.length
  · exact hb j h
  · rw [List.drop_eq_nil_of_le (by omega)]
    exact hend _

/-- **C5.** A filename with no (case-insensitive) `S<digits>E<digits>` token
anywhere parses to all-absent components; when the token occurs, the season
label of the result is exactly `"Season <n>"` where `n` is the first token's
season digit run read as an integer (so zero padding disappears).  In
particular `"Breaking.Bad.S01E05.1080p.mkv"` gives
`("Breaking Bad", "Season 1", absent)` and `"Random Movie.mkv"` gives
`(absent, absent, absent)`. -/
theorem C5_extract_series_info :
    extract_series_info "Breaking.Bad.S01E05.1080p.mkv" =
      (some "Breaking Bad", some "Season 1", none) ∧
    extract_series_info "Random Movie.mkv" = (none, none, none) ∧
    (∀ s : String, (∀ j, seTokenAt (prevAt none s.data j) (s.data.drop j) = none) →
      extract_series_info s = (none, none, none)) ∧
    (∀ (s : String) (j : Nat) (suf : List Char) (n ep : Nat),
      seTokenAt (prevAt none s.data j) (s.data.drop j) = some (suf, n, ep) →
      (∀ i, i < j → seTokenAt (prevAt none s.data i) (s.data.drop i) = none) →
      (extract_series_info s).2.1 = some ("Season " ++ Nat.repr n) ∧
      extract_series_info s ≠ (none, none, none)) := by
  refine ⟨by decide, by decide, ?_, ?_⟩
  · intro s hall
    have hscan : scanP seTokenAt none s.data = none :=
      (scanP_eq_none seTokenAt seTokenAt_nil s.data none).mpr hall
    unfold extract_series_info
    rw [hscan]
  · intro s j suf n ep hat hfirst
    have hj : j < s.data.length := by
      by_contra hge
      rw [List.drop_eq_nil_of_le (by omega), seTokenAt_nil] at hat
      exact absurd hat (by simp)
    have hscan : scanP seTokenAt none s.data = some (suf, n, ep) :=
      (scanP_eq_some seTokenAt seTokenAt_nil s.data none (suf, n, ep)).mpr
        ⟨j, hj, hat, hfirst⟩
    unfold extract_series_info
    rw [hscan]
    exact ⟨rfl, by simp⟩

/-- Witness for C5: the no-token input and the `"Breaking.Bad.S01E05..."`
token at position 13. -/
theorem C5_extract_series_info_witness :
    extract_series_info "Random Movie.mkv" = (none, none, none) ∧
    (extract_series_info "Breaking.Bad.S01E05.1080p.mkv").2.1 =
      some ("Season " ++ Nat.repr 1) := by
  constructor
  · apply C5_extract_series_info.2.2.1
    apply matcher_none_all seTokenAt_nil
    decide
  · exact (C5_extract_series_info.2.2.2 "Breaking.Bad.S01E05.1080p.mkv" 13
      ("S01E05.1080p.mkv").data 1 5 (by decide) (by decide)).1

theorem looseYearAt_nil (p : Option Char) : looseYearAt p [] = none := rfl

theorem pystrip_eq_nil_iff (cs : List Char) :
    pystrip cs = [] ↔ ∀ c ∈ cs, isSpc c = true := by
  unfold pystrip
  rw [List.reverse_eq_nil_iff, List.dropWhile_eq_nil_iff]
  constructor
  · intro h c hc
    have hsplit := List.takeWhile_append_dropWhile (p := isSpc) (l := cs)
    rw [← hsplit] at hc
    rcases List.mem_append.mp hc with hm | hm
    · exact List.mem_takeWhile_imp hm
    · exact h c (List.mem_reverse.mpr hm)
  · intro h c hc
    have : c ∈ cs.dropWhile isSpc := List.mem_reverse.mp hc
    exact h c (List.Sublist.mem this (List.dropWhile_sublist _))

theorem isSpc_sepToSpace (x : Char) :
    isSpc (sepToSpace x) = true ↔ (x = '.' ∨ x = '_' ∨ isSpc x = true) := by
  by_cases h : (x = '.' || x = '_') = true
  · simp only [sepToSpace, h, if_true]
    simp at h
    rcases h with h | h <;> simp [h, isSpc]
  · simp only [sepToSpace, h, if_false]
    simp at h
    simp [h.1, h.2]

/-- **C8 counterexample.** The input `"."` is non-empty and contains no year
token, yet `extract_movie_title` returns the empty string — refuting the
claim that the result is never empty for a non-empty year-free input. -/
theorem C8_counterexample :
    ("." : String) ≠ "" ∧
    scanP looseYearAt none (("." : String).data.map sepToSpace) = none ∧
    extract_movie_title "." = "" := by
  refine ⟨by decide, by decide, by decide⟩

/-- **C8 (amended).** With no `(19|20)\d{2}` token in the cleaned name,
`extract_movie_title` returns the whole input with `.`/`_` replaced by
spaces and stripped — and this is empty exactly when the input consists only
of `.`, `_` and whitespace (not never); with a year token, it returns the
text before the first token, stripped. -/
theorem C8_extract_movie_title :
    (∀ name : String, scanP looseYearAt none (name.data.map sepToSpace) = none →
      extract_movie_title name = String.mk (pystrip (name.data.map sepToSpace)) ∧
      (extract_movie_title name = "" ↔
        ∀ c ∈ name.data, c = '.' ∨ c = '_' ∨ isSpc c = true)) ∧
    (∀ (name : String) (j : Nat),
      looseYearAt (prevAt none (name.data.map sepToSpace) j)
        ((name.data.map sepToSpace).drop j) = some ((name.data.map sepToSpace).drop j) →
      (∀ i, i < j → looseYearAt (prevAt none (name.data.map sepToSpace) i)
        ((name.data.map sepToSpace).drop i) = none) →
      extract_movie_title name = String.mk (pystrip ((name.data.map sepToSpace).take j))) := by
  constructor
  · intro name hnone
    have h1 : extract_movie_title name = String.mk (pystrip (name.data.map sepToSpace)) := by
      unfold extract_movie_title
      rw [hnone]
    refine ⟨h1, ?_⟩
    rw [h1]
    rw [show ("" : String) = String.mk [] from rfl]
    rw [String.ext_iff]
    show pystrip (name.data.map sepToSpace) = [] ↔ _
    rw [pystrip_eq_nil_iff]
    constructor
    · intro h c hc
      exact (isSpc_sepToSpace c).mp (h _ (List.mem_map_of_mem sepToSpace hc))
    · intro h c hc
      rcases List.mem_map.mp hc with ⟨x, hx, rfl⟩
      exact (isSpc_sepToSpace x).mpr (h x hx)
  · intro name j hat hfirst
    have hj : j < (name.data.map sepToSpace).length := by
      by_contra hge
      rw [List.drop_eq_nil_of_le (by omega), looseYearAt_nil] at hat
      exact absurd hat (by simp)
    have hscan : scanP looseYearAt none (name.data.map sepToSpace) =
        some ((name.data.map sepToSpace).drop j) :=
      (scanP_eq_some looseYearAt looseYearAt_nil _ none _).mpr ⟨j, hj, hat, hfirst⟩
    unfold extract_movie_title
    rw [hscan]
    have hlen : (name.data.map sepToSpace).length -
        ((name.data.map sepToSpace).drop j).length = j := by
      rw [List.length_drop]
      omega
    show String.mk (pystrip ((name.data.map sepToSpace).take
      ((name.data.map sepToSpace).length - ((name.data.map sepToSpace).drop j).length))) = _
    rw [hlen]

/-- Witness for C8: `"Random Movie"` (no year) and `"The.Matrix.1999.1080p"`
(year at position 11 of the cleaned name). -/
theorem C8_extract_movie_title_witness :
    extract_movie_title "Random Movie" =
      String.mk (pystrip (("Random Movie" : String).data.map sepToSpace)) ∧
    extract_movie_title "The.Matrix.1999.1080p" =
      String.mk (pystrip ((("The.Matrix.1999.1080p" : String).data.map sepToSpace).take 11)) := by
  constructor
  · exact (C8_extract_movie_title.1 "Random Movie" (by decide)).1
  · exact C8_extract_movie_title.2 "The.Matrix.1999.1080p" 11 (by decide) (by decide)

theorem pyquote_append_cancel {a b : String} (sfx : String)
    (h : pyquote a ++ sfx = pyquote b ++ sfx) : a = b := by
  have hd := congrArg String.data h
  simp only [String.data_append] at hd
  exact pyquote_injective (String.ext (List.append_cancel_right hd))

/-- **C4 counterexample.** The claim that absent-year keys never collide with
present-year keys fails: a title that itself ends in a space and a year
collides, `CacheKey("Alien 1979", absent) = CacheKey("Alien", "1979")`. -/
theorem C4_counterexample :
    posterKey "Alien 1979" none = posterKey "Alien" (some "1979") := by decide

/-- **C4 (amended).** Cache keys are a function of `(title, year)`
(definitionally), the three concrete keys of the claim are pairwise distinct,
and an absent-year key can only coincide with a present-year key when the
absent-year title is literally the other title followed by a space and the
year — impossible for titles produced by `extract_movie_title`, which never
contain a year token. -/
theorem C4_cacheKey :
    (posterKey "Alien" (some "1979") ≠ posterKey "Alien" none ∧
     posterKey "Alien" (some "1979") ≠ posterKey "Aliens" (some "1979") ∧
     posterKey "Alien" none ≠ posterKey "Aliens" (some "1979") ∧
     synKey "Alien" (some "1979") ≠ synKey "Alien" none ∧
     synKey "Alien" (some "1979") ≠ synKey "Aliens" (some "1979") ∧
     synKey "Alien" none ≠ synKey "Aliens" (some "1979")) ∧
    (∀ t1 t2 y : String, y ≠ "" → t1 ≠ t2 ++ " " ++ y →
      posterKey t1 none ≠ posterKey t2 (some y)) ∧
    (∀ t1 t2 y : String, y ≠ "" → t1 ≠ t2 ++ " " ++ y →
      synKey t1 none ≠ synKey t2 (some y)) := by
  have h2 : ∀ t2 y : String, y ≠ "" → cacheName t2 (some y) = t2 ++ " " ++ y := by
    intro t2 y hy
    show (if y ≠ "" then t2 ++ " " ++ y else t2) = t2 ++ " " ++ y
    rw [if_pos hy]
  refine ⟨by decide, ?_, ?_⟩
  · intro t1 t2 y hy hne heq
    unfold posterKey at heq
    rw [show cacheName t1 none = t1 from rfl, h2 t2 y hy] at heq
    exact hne (pyquote_append_cancel ".jpg" heq)
  · intro t1 t2 y hy hne heq
    unfold synKey at heq
    rw [show cacheName t1 none = t1 from rfl, h2 t2 y hy] at heq
    exact hne (pyquote_append_cancel ".txt" heq)

/-- Witness for C4 at `("Alien", "Aliens", "1979")`. -/
theorem C4_cacheKey_witness :
    posterKey "Alien" none ≠ posterKey "Aliens" (some "1979") ∧
    synKey "Alien" none ≠ synKey "Aliens" (some "1979") :=
  ⟨C4_cacheKey.2.1 "Alien" "Aliens" "1979" (by decide) (by decide),
   C4_cacheKey.2.2 "Alien" "Aliens" "1979" (by decide) (by decide)⟩

/-- **C7.** The unique-name computation returns the original name when it is
unoccupied; otherwise it returns `base_k.ext` for the smallest `k ≥ 1` whose
name is unoccupied (every smaller suffix being occupied).  In particular a
collision on `movie.mp4` yields `movie_1.mp4`, and a second collision yields
`movie_2.mp4`. -/
theorem C7_get_unique_filename :
    get_unique_filename ["movie.mp4"] "movie.mp4" = "movie_1.mp4" ∧
    get_unique_filename ["movie.mp4", "movie_1.mp4"] "movie.mp4" = "movie_2.mp4" ∧
    (∀ (existing : List String) (fileName : String),
      existing.contains fileName = false →
      get_unique_filename existing fileName = fileName) ∧
    (∀ (existing : List String) (fileName : String),
      existing.contains fileName = true →
      ∃ k, 1 ≤ k ∧
        get_unique_filename existing fileName =
          numberedName (splitext fileName).1 (splitext fileName).2 k ∧
        existing.contains
          (numberedName (splitext fileName).1 (splitext fileName).2 k) = false ∧
        ∀ j, 1 ≤ j → j < k →
          existing.contains (numberedName (splitext fileName).1 (splitext fileName).2 j)
            = true) := by
  refine ⟨by decide, by decide, ?_, ?_⟩
  · intro existing fileName h
    unfold get_unique_filename
    rw [h]
    simp
  · intro existing fileName h
    obtain ⟨i, hi, hfree⟩ :=
      numbered_free_exists existing (splitext fileName).1 (splitext fileName).2
    obtain ⟨i', hi', hfree', hocc', heq⟩ :=
      uniqueGo_spec existing (splitext fileName).1 (splitext fileName).2
        (existing.length + 1) 1 ⟨i, hi, hfree⟩
    refine ⟨1 + i', by omega, ?_, hfree', ?_⟩
    · unfold get_unique_filename
      rw [h]
      simpa using heq
    · intro j h1 hj
      have hj' : j = 1 + (j - 1) := by omega
      rw [hj']
      exact hocc' (j - 1) (by omega)

/-- Witness for C7: both branches at concrete directory states. -/
theorem C7_get_unique_filename_witness :
    get_unique_filename ["other.mkv"] "movie.mp4" = "movie.mp4" ∧
    ∃ k, 1 ≤ k ∧
      get_unique_filename ["movie.mp4"] "movie.mp4" =
        numberedName (splitext "movie.mp4").1 (splitext "movie.mp4").2 k ∧
      (["movie.mp4"] : List String).contains
        (numberedName (splitext "movie.mp4").1 (splitext "movie.mp4").2 k) = false ∧
      ∀ j, 1 ≤ j → j < k →
        (["movie.mp4"] : List String).contains
          (numberedName (splitext "movie.mp4").1 (splitext "movie.mp4").2 j) = true :=
  ⟨C7_get_unique_filename.2.2.1 ["other.mkv"] "movie.mp4" (by decide),
   C7_get_unique_filename.2.2.2 ["movie.mp4"] "movie.mp4" (by decide)⟩

theorem candScore_nonneg (sn : String) (y : Option String) (r : TVCandidate) :
    0 ≤ candScore sn y r := by
  unfold candScore
  have h1 : (0 : Int) ≤
      (if lowerStr r.name = lowerStr sn then (100 : Int)
       else if isSubstr (lowerStr sn).data (lowerStr r.name).data then 50 else 0) := by
    split
    · norm_num
    · split <;> norm_num
  have h2 : (0 : Int) ≤
      (match y, tvYear r with
       | some y', some ry => if y' ≠ "" && y' = ry then (100 : Int) else 0
       | _, _ => 0) := by
    rcases y with _ | y'
    · simp
    · rcases htv : tvYear r with _ | ry
      · simp
      · simp only []
        split <;> norm_num
  omega

theorem bestGo_spec (sn : String) (y : Option String) :
    ∀ (cands : List TVCandidate) (s : Int) (m : Option TVCandidate),
    (bestGo sn y s m cands = m ∧ ∀ d ∈ cands, candScore sn y d ≤ s) ∨
    (∃ pre w post, cands = pre ++ w :: post ∧ bestGo sn y s m cands = some w ∧
      s < candScore sn y w ∧ (∀ d ∈ pre, candScore sn y d < candScore sn y w) ∧
      (∀ d ∈ post, candScore sn y d ≤ candScore sn y w)) := by
  intro cands
  induction cands with
  | nil => intro s m; left; exact ⟨rfl, by simp⟩
  | cons c rest ih =>
    intro s m
    rw [bestGo]
    by_cases hc : candScore sn y c > s
    · rw [if_pos hc]
      rcases ih (candScore sn y c) (some c) with ⟨heq, hall⟩ |
        ⟨pre, w, post, hsplit, heq, hlt, hpre, hpost⟩
      · right
        exact ⟨[], c, rest, by simp, heq, hc, by simp, hall⟩
      · right
        refine ⟨c :: pre, w, post, by rw [hsplit]; simp, heq, by omega, ?_, hpost⟩
        intro d hd
        rcases List.mem_cons.mp hd with rfl | hd
        · exact hlt
        · exact hpre d hd
    · rw [if_neg hc]
      rcases ih s m with ⟨heq, hall⟩ | ⟨pre, w, post, hsplit, heq, hlt, hpre, hpost⟩
      · left
        refine ⟨heq, ?_⟩
        intro d hd
        rcases List.mem_cons.mp hd with rfl | hd
        · omega
        · exact hall d hd
      · right
        refine ⟨c :: pre, w, post, by rw [hsplit]; simp, heq, hlt, ?_, hpost⟩
        intro d hd
        rcases List.mem_cons.mp hd with rfl | hd
        · omega
        · exact hpre d hd

/-- **C1.** The disambiguation keeps the candidate with the strictly highest
cumulative score seen so far: the chosen candidate scores strictly above every
earlier candidate (first-seen wins ties) and at least every later one, and
`none` is returned only for an empty candidate list.  On the claim's example
the exact name match scores 200, the substring match 150, the first candidate
wins, and the resulting overview is `"A"`. -/
theorem C1_disambiguation :
    (∀ (sn : String) (y : Option String) (cands : List TVCandidate),
      (bestMatch sn y cands = none ↔ cands = []) ∧
      ∀ w, bestMatch sn y cands = some w →
        ∃ pre post, cands = pre ++ w :: post ∧
          (∀ d ∈ pre, candScore sn y d < candScore sn y w) ∧
          (∀ d ∈ post, candScore sn y d ≤ candScore sn y w)) ∧
    candScore "Up" (some "2009") upCand = 200 ∧
    candScore "Up" (some "2009") upAllNightCand = 150 ∧
    bestMatch "Up" (some "2009") [upCand, upAllNightCand] = some upCand ∧
    (bestMatch "Up" (some "2009") [upCand, upAllNightCand]).map TVCandidate.overview
      = some "A" := by
  refine ⟨?_, by decide, by decide, by decide, by decide⟩
  intro sn y cands
  constructor
  · constructor
    · intro h
      cases cands with
      | nil => rfl
      | cons c rest =>
        exfalso
        unfold bestMatch at h
        rcases bestGo_spec sn y (c :: rest) (-1) none with ⟨_, hall⟩ |
          ⟨pre, w, post, _, heq, _, _, _⟩
        · have hle := hall c (by simp)
          have hge := candScore_nonneg sn y c
          omega
        · rw [heq] at h
          exact absurd h (by simp)
    · intro h
      rw [h]
      rfl
  · intro w hw
    unfold bestMatch at hw
    rcases bestGo_spec sn y cands (-1) none with ⟨heq, _⟩ |
      ⟨pre, w', post, hsplit, heq, _, hpre, hpost⟩
    · rw [heq] at hw
      exact absurd hw (by simp)
    · rw [heq] at hw
      have hww : w' = w := Option.some.inj hw
      subst hww
      exact ⟨pre, post, hsplit, hpre, hpost⟩

/-- Witness for C1: the general argmax property applied to the claim's
concrete example. -/
theorem C1_disambiguation_witness :
    ∃ pre post, [upCand, upAllNightCand] = pre ++ upCand :: post ∧
      (∀ d ∈ pre, candScore "Up" (some "2009") d < candScore "Up" (some "2009") upCand) ∧
      (∀ d ∈ post, candScore "Up" (some "2009") d ≤ candScore "Up" (some "2009") upCand) :=
  (C1_disambiguation.1 "Up" (some "2009") [upCand, upAllNightCand]).2 upCand (by decide)

/-- **C2 counterexample.** On a remote error the synopsis is the placeholder
`"Synopsis not available"`, not the empty text the claim requires; and when
candidates exist but none has an overview, the rating of the last scanned
candidate is kept, not absent. -/
theorem C2_counterexample :
    (load_metadata "Movie" none ⟨[], []⟩ (.error ())).1.synopsis =
      "Synopsis not available" ∧
    (load_metadata "Movie" none ⟨[], []⟩ (.error ())).1.synopsis ≠ "" ∧
    (load_metadata "Movie" none ⟨[], []⟩ (.ok [noOverviewCand])).1.imdb_rating =
      some "7.0" := by
  refine ⟨by decide, by decide, by decide⟩

/-- **C2 (amended).** A fully failed lookup never escapes `load_metadata`
(the model is total, reflecting the catch-all `except`): on a remote error
the caller receives absent rating, empty genres, the originally-known year,
and the placeholder synopsis `"Synopsis not available"`; on a remote success
with an empty candidate list the caller receives absent rating, empty genres,
the originally-known year, and empty synopsis.  Neither case touches the
cache. -/
theorem C2_load_metadata_failure :
    ∀ (title : String) (year : Option String) (st : CacheState),
      getA st.syn (synKey title year) = none →
      load_metadata title year st (.error ()) =
        ({ imdb_rating := none, genres := [], release_year := year,
           synopsis := "Synopsis not available" }, st) ∧
      load_metadata title year st (.ok []) =
        ({ imdb_rating := none, genres := [], release_year := year,
           synopsis := "" }, st) := by
  intro title year st hmiss
  constructor
  · simp only [load_metadata, hmiss]
  · simp only [load_metadata, hmiss]
    have hres : metaResolve year [] = ⟨"", none, [], year⟩ := by
      unfold metaResolve
      by_cases ht : truthy year <;> simp [ht, metaLoop1, metaLoop2]
    simp [hres, genres_named]

/-- Witness for C2 at an empty cache. -/
theorem C2_load_metadata_failure_witness :
    load_metadata "Movie" none ⟨[], []⟩ (.error ()) =
      ({ imdb_rating := none, genres := [], release_year := none,
         synopsis := "Synopsis not available" }, (⟨[], []⟩ : CacheState)) ∧
    load_metadata "Movie" none ⟨[], []⟩ (.ok []) =
      ({ imdb_rating := none, genres := [], release_year := none,
         synopsis := "" }, (⟨[], []⟩ : CacheState)) :=
  C2_load_metadata_failure "Movie" none ⟨[], []⟩ (by decide)

theorem setA_fresh_ne (c : List (String × String)) (k v : String)
    (h : getA c k = none) : setA c k v ≠ c := by
  intro heq
  have := setA_fresh_length c k v h
  rw [heq] at this
  omega

/-- **C10.** On a cache miss, `load_metadata` and `get_series_synopsis` leave
the cache untouched exactly when the resolved overview text is empty — a
remote error never writes, and a successful lookup writes (both files) iff
the overview is non-empty, whatever rating, genres or year were resolved. -/
theorem C10_cache_persistence :
    (∀ (title : String) (year : Option String) (st : CacheState) (rs : List Candidate),
      getA st.syn (synKey title year) = none →
      ((load_metadata title year st (.ok rs)).2 = st ↔
        (load_metadata title year st (.ok rs)).1.synopsis = "")) ∧
    (∀ (title : String) (year : Option String) (st : CacheState),
      getA st.syn (synKey title year) = none →
      (load_metadata title year st (.error ())).2 = st) ∧
    (∀ (sn : String) (st : CacheState) (rs : List TVCandidate),
      getA st.syn (synKey sn (extract_year sn)) = none →
      ((get_series_synopsis sn st (.ok rs)).2 = st ↔
        (get_series_synopsis sn st (.ok rs)).1.overview = some "")) ∧
    (∀ (sn : String) (st : CacheState),
      getA st.syn (synKey sn (extract_year sn)) = none →
      (get_series_synopsis sn st (.error ())).2 = st) := by
  refine ⟨?_, ?_, ?_, ?_⟩
  · intro title year st rs hmiss
    simp only [load_metadata, hmiss]
    by_cases hov : (metaResolve year rs).overview ≠ ""
    · rw [if_pos hov]
      constructor
      · intro habs
        exfalso
        exact setA_fresh_ne st.syn (synKey title year) _ hmiss
          (congrArg CacheState.syn habs)
      · intro habs
        exact absurd habs hov
    · rw [if_neg hov]
      simp only [not_not] at hov
      exact iff_of_true rfl hov
  · intro title year st hmiss
    simp only [load_metadata, hmiss]
  · intro sn st rs hmiss
    simp only [get_series_synopsis, hmiss]
    split
    · rename_i b heq
      by_cases hov : b.overview ≠ ""
      · rw [if_pos hov]
        constructor
        · intro habs
          exfalso
          exact setA_fresh_ne st.syn (synKey sn (extract_year sn)) _ hmiss
            (congrArg CacheState.syn habs)
        · intro habs
          exact absurd (Option.some.inj habs) hov
      · rw [if_neg hov]
        simp only [not_not] at hov
        exact iff_of_true rfl (by rw [hov])
    · exact iff_of_true rfl rfl
  · intro sn st hmiss
    simp only [get_series_synopsis, hmiss]

/-- Witness for C10: a successful lookup with a non-empty overview writes the
two files; one with an empty candidate list writes nothing. -/
theorem C10_cache_persistence_witness :
    ((load_metadata "Movie" none ⟨[], []⟩ (.ok [])).2 = (⟨[], []⟩ : CacheState) ↔
      (load_metadata "Movie" none ⟨[], []⟩ (.ok [])).1.synopsis = "") ∧
    (load_metadata "Movie" none ⟨[], []⟩ (.error ())).2 = (⟨[], []⟩ : CacheState) ∧
    ((get_series_synopsis "Up" ⟨[], []⟩ (.ok [upCand])).2 = (⟨[], []⟩ : CacheState) ↔
      (get_series_synopsis "Up" ⟨[], []⟩ (.ok [upCand])).1.overview = some "") :=
  ⟨C10_cache_persistence.1 "Movie" none ⟨[], []⟩ [] (by decide),
   C10_cache_persistence.2.1 "Movie" none ⟨[], []⟩ (by decide),
   C10_cache_persistence.2.2.1 "Up" ⟨[], []⟩ [upCand] (by decide)⟩

theorem pySplitCh_ne_nil (sep : Char) (cs : List Char) : pySplitCh sep cs ≠ [] := by
  cases cs with
  | nil => simp [pySplitCh]
  | cons c rest =>
    cases h : pySplitCh sep rest with
    | nil => by_cases hc : c = sep <;> simp [pySplitCh, h, hc]
    | cons g gs => by_cases hc : c = sep <;> simp [pySplitCh, h, hc]

theorem pySplitCh_no_sep (sep : Char) (cs : List Char) (h : sep ∉ cs) :
    pySplitCh sep cs = [cs] := by
  induction cs with
  | nil => rfl
  | cons c rest ih =>
    have hc : c ≠ sep := by
      intro hh
      exact h (by simp [hh])
    have hrest : sep ∉ rest := fun hm => h (by simp [hm])
    rw [pySplitCh, ih hrest]
    simp [hc]

theorem pySplitCh_append (sep : Char) (xs ys : List Char) (h : sep ∉ xs) :
    pySplitCh sep (xs ++ sep :: ys) = xs :: pySplitCh sep ys := by
  induction xs with
  | nil =>
    simp only [List.nil_append]
    rw [pySplitCh]
    cases hy : pySplitCh sep ys with
    | nil => exact absurd hy (pySplitCh_ne_nil sep ys)
    | cons g gs => simp
  | cons x xs ih =>
    have hx : x ≠ sep := by
      intro hh
      exact h (by simp [hh])
    have hxs : sep ∉ xs := fun hm => h (by simp [hm])
    simp only [List.cons_append]
    rw [pySplitCh, ih hxs]
    simp [hx]

theorem mem_joinSep {sep : String} {gs : List String} {c : Char}
    (h : c ∈ (joinSep sep gs).data) : c ∈ sep.data ∨ ∃ g ∈ gs, c ∈ g.data := by
  induction gs with
  | nil => exact absurd h (by simp [joinSep])
  | cons x xs ih =>
    cases xs with
    | nil =>
      right
      exact ⟨x, by simp, by simpa [joinSep] using h⟩
    | cons y t =>
      simp only [joinSep, String.data_append, List.mem_append] at h
      rcases h with (h | h) | h
      · exact Or.inr ⟨x, by simp, h⟩
      · exact Or.inl h
      · rcases ih h with h' | ⟨g, hg, hc⟩
        · exact Or.inl h'
        · exact Or.inr ⟨g, by simp [hg], hc⟩

theorem joinSep_ne_empty {gs : List String} (hne : gs ≠ [])
    (hx : ∀ g ∈ gs, g ≠ "") : joinSep "," gs ≠ "" := by
  cases gs with
  | nil => contradiction
  | cons x xs =>
    cases xs with
    | nil => simpa [joinSep] using hx x (by simp)
    | cons y t =>
      simp only [joinSep]
      intro hc
      have hd := congrArg String.data hc
      simp [String.data_append] at hd

theorem pySplit_joinSep (gs : List String) (hsep : ∀ g ∈ gs, (',') ∉ g.data) :
    gs ≠ [] → pySplit ',' (joinSep "," gs) = gs := by
  induction gs with
  | nil => intro h; contradiction
  | cons x xs ih =>
    intro _
    cases xs with
    | nil =>
      unfold pySplit
      rw [show joinSep "," [x] = x from rfl,
        pySplitCh_no_sep ',' x.data (hsep x (by simp))]
      simp
    | cons y t =>
      unfold pySplit
      have hd : (joinSep "," (x :: y :: t)).data =
          x.data ++ ',' :: (joinSep "," (y :: t)).data := by
        simp only [joinSep, String.data_append]
        simp [show ("," : String).data = [','] from rfl]
      rw [hd, pySplitCh_append ',' _ _ (hsep x (by simp))]
      have hrec := ih (fun g hg => hsep g (by simp [hg])) (by simp)
      unfold pySplit at hrec
      simp [hrec]

theorem genre_table_ok :
    ∀ g ∈ genre_map.map Prod.snd, g ≠ "" ∧ (',') ∉ g.data ∧ ('|') ∉ g.data := by
  decide

/-- **C9 counterexample.** A record written with an empty year string does not
round-trip: `"None||"` parses back with the currently-known search year
substituted for the empty field, so the year read differs from the year
written. -/
theorem C9_counterexample :
    writeMetaLine none [] (some "") = "None||" ∧
    parseMetaFields (some "2001") (writeMetaLine none [] (some "")) =
      some (none, [], some "2001") ∧
    (some ((none : Option String), ([] : List String), (some "" : Option String))) ≠
      some ((none : Option String), ([] : List String), (some "2001" : Option String)) := by
  refine ⟨by decide, by decide, by decide⟩

/-- **C9 (amended).** The meta line `rating|genre1,...|year` round-trips
through write-then-parse for every record whose rating token is either absent
(written as the literal `"None"`) or a printed number (not `"None"`, no `|`),
whose genre names come from the fixed genre table, and whose year is a
non-empty string without `|`; a record with an empty year string instead
parses back with the caller's known year in place of the empty field. -/
theorem C9_metaLine_roundtrip :
    ∀ (sy : Option String) (r : Option String) (gs : List String) (yr : String),
      (r = none ∨ ∃ t, r = some t ∧ t ≠ "None" ∧ ('|') ∉ t.data) →
      (∀ g ∈ gs, g ∈ genre_map.map Prod.snd) →
      yr ≠ "" → ('|') ∉ yr.data →
      parseMetaFields sy (writeMetaLine r gs (some yr)) = some (r, gs, some yr) := by
  intro sy r gs yr hr hg hyr hyp
  have hgsep : ∀ g ∈ gs, (',') ∉ g.data := fun g hgm => (genre_table_ok g (hg g hgm)).2.1
  have hgne : ∀ g ∈ gs, g ≠ "" := fun g hgm => (genre_table_ok g (hg g hgm)).1
  have hRpipe : ('|') ∉ (optStr r).data := by
    rcases hr with rfl | ⟨t, rfl, _, ht⟩
    · decide
    · exact ht
  have hGpipe : ('|') ∉ (joinSep "," gs).data := by
    intro hm
    rcases mem_joinSep hm with hm' | ⟨g, hgm, hc⟩
    · revert hm'
      decide
    · exact (genre_table_ok g (hg g hgm)).2.2 hc
  have hline : (writeMetaLine r gs (some yr)).data =
      (optStr r).data ++ '|' :: ((joinSep "," gs).data ++ '|' :: yr.data) := by
    unfold writeMetaLine
    simp only [String.data_append, show (("|" : String)).data = ['|'] from rfl,
      show optStr (some yr) = yr from rfl]
    simp
  have hsplit3 : pySplit '|' (writeMetaLine r gs (some yr)) =
      [optStr r, joinSep "," gs, yr] := by
    unfold pySplit
    rw [hline, pySplitCh_append '|' _ _ hRpipe, pySplitCh_append '|' _ _ hGpipe,
      pySplitCh_no_sep '|' _ hyp]
    simp
  unfold parseMetaFields
  rw [hsplit3]
  have h1 : (if optStr r ≠ "None" then some (optStr r) else none) = r := by
    rcases hr with rfl | ⟨t, rfl, htN, _⟩
    · simp [optStr]
    · simp [optStr, htN]
  have h2 : (if joinSep "," gs ≠ "" then pySplit ',' (joinSep "," gs) else []) = gs := by
    cases gs with
    | nil => simp [joinSep]
    | cons x xs =>
      rw [if_pos (joinSep_ne_empty (by simp) hgne)]
      exact pySplit_joinSep _ hgsep (by simp)
  have h3 : (if yr ≠ "" then some yr else sy) = some yr := by rw [if_pos hyr]
  show some (if optStr r ≠ "None" then some (optStr r) else none,
      if joinSep "," gs ≠ "" then pySplit ',' (joinSep "," gs) else [],
      if yr ≠ "" then some yr else sy) = some (r, gs, some yr)
  rw [h1, h2, h3]

/-- Witness for C9: a rating token, two table genres and a non-empty year. -/
theorem C9_metaLine_roundtrip_witness :
    parseMetaFields none (writeMetaLine (some "7.8") ["Action", "Sci-Fi"] (some "2009")) =
      some (some "7.8", ["Action", "Sci-Fi"], some "2009") :=
  C9_metaLine_roundtrip none (some "7.8") ["Action", "Sci-Fi"] "2009"
    (Or.inr ⟨"7.8", rfl, by decide, by decide⟩) (by decide) (by decide) (by decide)

/-- **C3.** When a `load_poster` call returns bytes after going remote (its
remote-query count is 1), those bytes were persisted under the exact key
`CacheKey(title, year)`, and a second call with the identical title and year
returns the same cached bytes through the exact-cache-hit step without
issuing any remote query — so the two calls together perform exactly one
remote lookup. -/
theorem C3_load_poster_idempotent :
    ∀ (valid : String → Bool) (title : String) (year : Option String)
      (cache : List (String × String)) (remote : Except Unit (List Candidate))
      (img : String → String) (b : String) (c' : List (String × String)),
      load_poster valid title year cache remote img = (some b, c', 1) →
      getA c' (posterKey title year) = some b ∧ valid b = true ∧
      load_poster valid title year c' remote img = (some b, c', 0) := by
  intro valid title year cache remote img b c' h
  have main : c' = setA cache (posterKey title year) b ∧ valid b = true := by
    simp only [load_poster] at h
    split at h
    · rename_i b0 hks
      split at h
      · exact absurd (congrArg (fun p => p.2.2) h) (by simp)
      · -- invalid exact hit: fall through to stage 2/3
        split at h
        · rename_i fname hscan
          split at h
          · rename_i d hget
            split at h
            · exact absurd (congrArg (fun p => p.2.2) h) (by simp)
            · -- stage 3 inside
              split at h
              · exact absurd (congrArg (fun p => p.1) h) (by simp)
              · rename_i rs
                split at h
                · rename_i p hpick
                  have h1 := congrArg (fun q => q.1) h
                  have h2 := congrArg (fun q => q.2.1) h
                  simp only at h1 h2
                  by_cases hv : valid (img p) = true
                  · rw [if_pos hv] at h1
                    have hb : img p = b := Option.some.inj h1
                    rw [hb] at h2 hv
                    exact ⟨h2.symm, hv⟩
                  · rw [if_neg hv] at h1
                    exact absurd h1 (by simp)
                · exact absurd (congrArg (fun q => q.1) h) (by simp)
          · split at h
            · exact absurd (congrArg (fun q => q.1) h) (by simp)
            · rename_i rs
              split at h
              · rename_i p hpick
                have h1 := congrArg (fun q => q.1) h
                have h2 := congrArg (fun q => q.2.1) h
                simp only at h1 h2
                by_cases hv : valid (img p) = true
                · rw [if_pos hv] at h1
                  have hb : img p = b := Option.some.inj h1
                  rw [hb] at h2 hv
                  exact ⟨h2.symm, hv⟩
                · rw [if_neg hv] at h1
                  exact absurd h1 (by simp)
              · exact absurd (congrArg (fun q => q.1) h) (by simp)
        · split at h
          · exact absurd (congrArg (fun q => q.1) h) (by simp)
          · rename_i rs
            split at h
            · rename_i p hpick
              have h1 := congrArg (fun q => q.1) h
              have h2 := congrArg (fun q => q.2.1) h
              simp only at h1 h2
              by_cases hv : valid (img p) = true
              · rw [if_pos hv] at h1
                have hb : img p = b := Option.some.inj h1
                rw [hb] at h2 hv
                exact ⟨h2.symm, hv⟩
              · rw [if_neg hv] at h1
                exact absurd h1 (by simp)
            · exact absurd (congrArg (fun q => q.1) h) (by simp)
    · -- stage-1 miss: stage 2/3, same sub-analysis
      split at h
      · rename_i fname hscan
        split at h
        · rename_i d hget
          split at h
          · exact absurd (congrArg (fun p => p.2.2) h) (by simp)
          · split at h
            · exact absurd (congrArg (fun q => q.1) h) (by simp)
            · rename_i rs
              split at h
              · rename_i p hpick
                have h1 := congrArg (fun q => q.1) h
                have h2 := congrArg (fun q => q.2.1) h
                simp only at h1 h2
                by_cases hv : valid (img p) = true
                · rw [if_pos hv] at h1
                  have hb : img p = b := Option.some.inj h1
                  rw [hb] at h2 hv
                  exact ⟨h2.symm, hv⟩
                · rw [if_neg hv] at h1
                  exact absurd h1 (by simp)
              · exact absurd (congrArg (fun q => q.1) h) (by simp)
        · split at h
          · exact absurd (congrArg (fun q => q.1) h) (by simp)
          · rename_i rs
            split at h
            · rename_i p hpick
              have h1 := congrArg (fun q => q.1) h
              have h2 := congrArg (fun q => q.2.1) h
              simp only at h1 h2
              by_cases hv : valid (img p) = true
              · rw [if_pos hv] at h1
                have hb : img p = b := Option.some.inj h1
                rw [hb] at h2 hv
                exact ⟨h2.symm, hv⟩
              · rw [if_neg hv] at h1
                exact absurd h1 (by simp)
            · exact absurd (congrArg (fun q => q.1) h) (by simp)
      · split at h
        · exact absurd (congrArg (fun q => q.1) h) (by simp)
        · rename_i rs
          split at h
          · rename_i p hpick
            have h1 := congrArg (fun q => q.1) h
            have h2 := congrArg (fun q => q.2.1) h
            simp only at h1 h2
            by_cases hv : valid (img p) = true
            · rw [if_pos hv] at h1
              have hb : img p = b := Option.some.inj h1
              rw [hb] at h2 hv
              exact ⟨h2.symm, hv⟩
            · rw [if_neg hv] at h1
              exact absurd h1 (by simp)
          · exact absurd (congrArg (fun q => q.1) h) (by simp)
  obtain ⟨hc', hvb⟩ := main
  have hhit : getA c' (posterKey title year) = some b := by
    rw [hc']
    exact getA_setA_self cache (posterKey title year) b
  refine ⟨hhit, hvb, ?_⟩
  simp only [load_poster, hhit, hvb, if_true]

/-- Witness for C3: an empty cache, one remote candidate with a poster, and
always-decodable bytes. -/
theorem C3_load_poster_idempotent_witness :
    getA [("Alien.jpg", "IMG")] (posterKey "Alien" none) = some "IMG" ∧
    load_poster (fun _ => true) "Alien" none [("Alien.jpg", "IMG")]
      (.ok [posterCand]) (fun _ => "IMG") = (some "IMG", [("Alien.jpg", "IMG")], 0) := by
  have h := C3_load_poster_idempotent (fun _ => true) "Alien" none []
    (.ok [posterCand]) (fun _ => "IMG") "IMG" [("Alien.jpg", "IMG")] (by decide)
  exact ⟨h.1, h.2.2⟩

end Mediaflix

